import Mathlib

/-!
Shallow embedding of the microjson parser (src/mjson.c together with the
project header that declares the template structures).

Modelling conventions:

* A C string is a NUL-free `List Char`; the end of the list plays the role
  of the terminating NUL byte.  Value buffers may acquire embedded NUL
  bytes through escape processing, so the portion a C string function sees
  is recovered with `cstr`.
* Destination memory is a write journal: a list of (byte address, stored
  value) pairs, most recent write first.  Pointer values are byte
  addresses (`Nat`), with the usual LP64 footprints: int and unsigned 4
  bytes, double 8, bool and char 1.
* C doubles are modelled as exact rationals.  The conversion routines
  (`safe_atof`, the strtod contract) follow the source algorithms over
  `Rat`; IEEE-754 rounding is abstracted away, which no theorem below
  depends on.
* The C library routines used by the source (atoi, strtol, strtoul,
  strtod, sscanf with a %04x format, strptime) are not part of the
  repository; they are modelled from their standard contracts, which the
  specification references explicitly.
-/

/-! ### Character classification and C strings -/

/- The rational arithmetic below is evaluated inside `decide` proofs;
restore kernel-visible reducibility for the core operations. -/
attribute [local semireducible] Rat.mul Rat.add Rat.inv Rat.sub

def nulChar : Char := Char.ofNat 0

/-- C `isspace` in the C locale. -/
def isspace (c : Char) : Bool :=
  c = ' ' || c = '\t' || c = '\n' || c = Char.ofNat 11 || c = Char.ofNat 12 || c = '\r'

/-- C `isdigit`. -/
def isdigit (c : Char) : Bool := '0' ≤ c && c ≤ '9'

/-- C `isxdigit`. -/
def isxdigit (c : Char) : Bool :=
  isdigit c || ('a' ≤ c && c ≤ 'f') || ('A' ≤ c && c ≤ 'F')

/-- The part of a buffer a C string function sees: everything up to the
first embedded NUL byte. -/
def cstr (l : List Char) : List Char := l.takeWhile (fun c => c ≠ nulChar)

/-- First character of a C string; reading the terminator of an empty
string yields NUL, as in C. -/
def peekChar (l : List Char) : Char := l.headD nulChar

/-! ### Stored values and destination memory -/

/-- A value as stored through a destination pointer.  `undef` is the
content of a cell that was never written during the parse. -/
inductive CVal where
  | undef
  | vint (n : Int)
  | vuint (n : Nat)
  | vreal (q : Rat)
  | vbool (b : Bool)
  | vchar (c : Char)
  | vstr (s : List Char)
  | vptr (a : Nat)
  deriving DecidableEq, Repr

/-- Destination memory as a write journal, most recent write first. -/
def Mem : Type := List (Nat × CVal)

instance : DecidableEq Mem := inferInstanceAs (DecidableEq (List (Nat × CVal)))

def Mem.write (m : Mem) (a : Nat) (v : CVal) : Mem := (a, v) :: m

def Mem.read (m : Mem) (a : Nat) : CVal :=
  match (List.find? (fun p => p.1 == a) m) with
  | some p => p.2
  | none => CVal.undef

/-! ### The template structures (header: json_type, json_enum_t,
json_array_t, json_attr_t) -/

inductive JsonType where
  | t_integer | t_uinteger | t_real | t_string | t_boolean | t_character
  | t_time | t_object | t_structobject | t_array | t_check | t_ignore
  | t_short | t_ushort
  deriving DecidableEq, Repr

structure JsonEnumT where
  name : List Char
  value : Int
  deriving DecidableEq, Repr

mutual
/-- `struct json_array_t`.  The `arr` union is modelled with one field per
union member the code reads: `subtype`/`base`/`stride` for object arrays,
`ptrs`/`sstore`/`storelen` for string arrays (`sstore` is
`arr.strings.store`), and `store` for the single-pointer scalar store
members (which all alias each other in the C union). -/
inductive JsonArrayT where
  | mk (element_type : JsonType) (subtype : List JsonAttrT)
       (base : Nat) (stride : Nat)
       (ptrs : Nat) (sstore : Nat) (storelen : Int)
       (store : Nat) (count : Option Nat) (maxlen : Int)
/-- `struct json_attr_t`.  The `addr` union is a single byte address
(`addr`, also the byte offset of a structobject member) plus the array
descriptor used when `type` is `t_array`; the `dflt` union is modelled
with one field per member the code reads. -/
inductive JsonAttrT where
  | mk (attrName : List Char) (type : JsonType) (addr : Nat)
       (arrayDesc : JsonArrayT)
       (dfltInteger : Int) (dfltUinteger : Nat) (dfltReal : Rat)
       (dfltBool : Bool) (dfltCharacter : Char) (dfltCheck : List Char)
       (len : Nat) (map : List JsonEnumT) (nodefault : Bool)
end

def JsonArrayT.element_type : JsonArrayT → JsonType
  | .mk t _ _ _ _ _ _ _ _ _ => t
def JsonArrayT.subtype : JsonArrayT → List JsonAttrT
  | .mk _ s _ _ _ _ _ _ _ _ => s
def JsonArrayT.base : JsonArrayT → Nat
  | .mk _ _ b _ _ _ _ _ _ _ => b
def JsonArrayT.stride : JsonArrayT → Nat
  | .mk _ _ _ st _ _ _ _ _ _ => st
def JsonArrayT.ptrs : JsonArrayT → Nat
  | .mk _ _ _ _ p _ _ _ _ _ => p
def JsonArrayT.sstore : JsonArrayT → Nat
  | .mk _ _ _ _ _ s _ _ _ _ => s
def JsonArrayT.storelen : JsonArrayT → Int
  | .mk _ _ _ _ _ _ sl _ _ _ => sl
def JsonArrayT.store : JsonArrayT → Nat
  | .mk _ _ _ _ _ _ _ st _ _ => st
def JsonArrayT.count : JsonArrayT → Option Nat
  | .mk _ _ _ _ _ _ _ _ c _ => c
def JsonArrayT.maxlen : JsonArrayT → Int
  | .mk _ _ _ _ _ _ _ _ _ m => m

/-- The `attribute` field (name chosen because `attribute` is reserved in Lean). -/
def JsonAttrT.attrName : JsonAttrT → List Char
  | .mk a _ _ _ _ _ _ _ _ _ _ _ _ => a
def JsonAttrT.type : JsonAttrT → JsonType
  | .mk _ t _ _ _ _ _ _ _ _ _ _ _ => t
def JsonAttrT.addr : JsonAttrT → Nat
  | .mk _ _ a _ _ _ _ _ _ _ _ _ _ => a
def JsonAttrT.arrayDesc : JsonAttrT → JsonArrayT
  | .mk _ _ _ d _ _ _ _ _ _ _ _ _ => d
def JsonAttrT.dfltInteger : JsonAttrT → Int
  | .mk _ _ _ _ i _ _ _ _ _ _ _ _ => i
def JsonAttrT.dfltUinteger : JsonAttrT → Nat
  | .mk _ _ _ _ _ u _ _ _ _ _ _ _ => u
def JsonAttrT.dfltReal : JsonAttrT → Rat
  | .mk _ _ _ _ _ _ r _ _ _ _ _ _ => r
def JsonAttrT.dfltBool : JsonAttrT → Bool
  | .mk _ _ _ _ _ _ _ b _ _ _ _ _ => b
def JsonAttrT.dfltCharacter : JsonAttrT → Char
  | .mk _ _ _ _ _ _ _ _ c _ _ _ _ => c
def JsonAttrT.dfltCheck : JsonAttrT → List Char
  | .mk _ _ _ _ _ _ _ _ _ k _ _ _ => k
def JsonAttrT.len : JsonAttrT → Nat
  | .mk _ _ _ _ _ _ _ _ _ _ l _ _ => l
def JsonAttrT.map : JsonAttrT → List JsonEnumT
  | .mk _ _ _ _ _ _ _ _ _ _ _ m _ => m
def JsonAttrT.nodefault : JsonAttrT → Bool
  | .mk _ _ _ _ _ _ _ _ _ _ _ _ n => n

/-- An all-zero array descriptor, standing for the irrelevant content of
the `addr` union in entries that are not of array kind. -/
def nullArray : JsonArrayT := .mk .t_integer [] 0 0 0 0 0 0 none 0

/-! ### json_target_address -/

/-- The ordinary (non-structobject) arm of `json_target_address`: index
into the per-field parallel array named by the entry, in units of the
kind's storage footprint.  Kinds without a direct destination (the
`default` arm of the C switch: object, structobject, array, check, and the
unimplemented short/ushort) yield no address, as does `t_ignore`. -/
def ordinaryTarget (cursor : JsonAttrT) (offset : Nat) : Option Nat :=
  match cursor.type with
  | .t_ignore => none
  | .t_integer => some (cursor.addr + offset * 4)
  | .t_uinteger => some (cursor.addr + offset * 4)
  | .t_time => some (cursor.addr + offset * 8)
  | .t_real => some (cursor.addr + offset * 8)
  | .t_string => some cursor.addr
  | .t_boolean => some (cursor.addr + offset * 1)
  | .t_character => some (cursor.addr + offset * 1)
  | _ => none

/-- `json_target_address`: total, side-effect-free resolution of a schema
entry plus parent/index context to a destination byte address. -/
def json_target_address (cursor : JsonAttrT) (parent : Option JsonArrayT)
    (offset : Nat) : Option Nat :=
  match parent with
  | none => ordinaryTarget cursor offset
  | some p =>
    if p.element_type = .t_structobject then
      some (p.base + offset * p.stride + cursor.addr)
    else
      ordinaryTarget cursor offset

/-! ### Numeric conversions (C library contracts and safe_atof) -/

def digitVal (c : Char) : Nat := c.toNat - '0'.toNat

def hexDigitVal (c : Char) : Nat :=
  if isdigit c then digitVal c
  else if 'a' ≤ c && c ≤ 'f' then c.toNat - 'a'.toNat + 10
  else c.toNat - 'A'.toNat + 10

/-- C octal digit test. -/
def isodigit (c : Char) : Bool := '0' ≤ c && c ≤ '7'

/-- Accumulate digits of base `b` from the front of the list. -/
def scanDigits (isd : Char → Bool) (dv : Char → Nat) (b : Nat) :
    List Char → Nat → Nat × List Char
  | [], acc => (acc, [])
  | c :: rest, acc =>
    if isd c then scanDigits isd dv b rest (b * acc + dv c) else (acc, c :: rest)

/-- Accumulate decimal digits, also counting how many were consumed. -/
def decScan : List Char → Nat → Nat → Nat × Nat × List Char
  | [], v, n => (v, n, [])
  | c :: rest, v, n =>
    if isdigit c then decScan rest (10 * v + digitVal c) (n + 1) else (v, n, c :: rest)

def LONG_MAX : Int := 9223372036854775807
def LONG_MIN : Int := -9223372036854775808
def ULONG_MAX : Nat := 18446744073709551615

def clampLong (v : Int) : Int :=
  if v > LONG_MAX then LONG_MAX else if v < LONG_MIN then LONG_MIN else v

/-- C conversion of a (possibly saturated) long to `int`: wrap to the
signed 32-bit range. -/
def toInt32 (v : Int) : Int := (v + 2147483648) % 4294967296 - 2147483648

/-- C conversion to `unsigned int`: reduce mod 2^32. -/
def toUInt32n (v : Int) : Nat := (v % 4294967296).toNat

/-- Modelled from the C library contract: `strtol(cp, &ep, 0)`.  Skips
whitespace, takes an optional sign, then a hex (`0x`), octal (leading
`0`) or decimal digit string; saturates at the long range.  `none` means
no conversion was performed (`ep == cp`). -/
def strtol (l : List Char) : Option (Int × List Char) :=
  let l1 := l.dropWhile (fun c => isspace c)
  let neg := peekChar l1 = '-'
  let l2 := if peekChar l1 = '-' || peekChar l1 = '+' then l1.drop 1 else l1
  let signed : Nat → Int := fun m => clampLong (if neg then -(m : Int) else (m : Int))
  if peekChar l2 = '0' && (peekChar (l2.drop 1) = 'x' || peekChar (l2.drop 1) = 'X') &&
     isxdigit (peekChar (l2.drop 2)) then
    let (m, rest) := scanDigits isxdigit hexDigitVal 16 (l2.drop 2) 0
    some (signed m, rest)
  else if peekChar l2 = '0' then
    let (m, rest) := scanDigits isodigit digitVal 8 l2 0
    some (signed m, rest)
  else if isdigit (peekChar l2) then
    let (m, rest) := scanDigits isdigit digitVal 10 l2 0
    some (signed m, rest)
  else none

/-- Modelled from the C library contract: `strtoul(cp, &ep, 0)`.  Like
`strtol` but saturating at `ULONG_MAX`; a leading minus negates the value
in unsigned (mod 2^64) arithmetic. -/
def strtoul (l : List Char) : Option (Nat × List Char) :=
  let l1 := l.dropWhile (fun c => isspace c)
  let neg := peekChar l1 = '-'
  let l2 := if peekChar l1 = '-' || peekChar l1 = '+' then l1.drop 1 else l1
  let fin : Nat → Nat := fun m =>
    let m' := min m ULONG_MAX
    if neg then (18446744073709551616 - m') % 18446744073709551616 else m'
  if peekChar l2 = '0' && (peekChar (l2.drop 1) = 'x' || peekChar (l2.drop 1) = 'X') &&
     isxdigit (peekChar (l2.drop 2)) then
    let (m, rest) := scanDigits isxdigit hexDigitVal 16 (l2.drop 2) 0
    some (fin m, rest)
  else if peekChar l2 = '0' then
    let (m, rest) := scanDigits isodigit digitVal 8 l2 0
    some (fin m, rest)
  else if isdigit (peekChar l2) then
    let (m, rest) := scanDigits isdigit digitVal 10 l2 0
    some (fin m, rest)
  else none

/-- Modelled from the C library contract: `atoi`.  Decimal only, no
saturation is modelled (overflow is undefined in C and unexercised
here). -/
def atoi (l : List Char) : Int :=
  let l1 := l.dropWhile (fun c => isspace c)
  let neg := peekChar l1 = '-'
  let l2 := if peekChar l1 = '-' || peekChar l1 = '+' then l1.drop 1 else l1
  let (m, _) := scanDigits isdigit digitVal 10 l2 0
  if neg then -(m : Int) else (m : Int)

/-- Modelled from the C library contract: `strtod` on a decimal lexeme
(`[sign] digits [. digits] [e [sign] digits]`), exact over `Rat`.  `none`
means no conversion (`ep == cp`). -/
def strtod (l : List Char) : Option (Rat × List Char) :=
  let l1 := l.dropWhile (fun c => isspace c)
  let neg := peekChar l1 = '-'
  let l2 := if peekChar l1 = '-' || peekChar l1 = '+' then l1.drop 1 else l1
  let (iv, ic, r1) := decScan l2 0 0
  let (fv, fc, r2) :=
    if peekChar r1 = '.' then decScan (r1.drop 1) iv 0
    else (iv, 0, r1)
  if ic + fc = 0 then none
  else
    let (ev, rest) :=
      match r2 with
      | 'e' :: r3 | 'E' :: r3 =>
        let (esign, r4) := match r3 with
          | '-' :: r => (true, r)
          | '+' :: r => (false, r)
          | _ => (false, r3)
        let (en, ecnt, r5) := decScan r4 0 0
        if ecnt = 0 then ((0 : Int), r2)
        else ((if esign then -(en : Int) else (en : Int)), r5)
      | _ => ((0 : Int), r2)
    let mant : Rat := (fv : Rat) / ((10 : Rat) ^ fc)
    let scaled : Rat :=
      if ev ≥ 0 then mant * (10 : Rat) ^ ev.toNat else mant / (10 : Rat) ^ (-ev).toNat
    some ((if neg then -scaled else scaled), rest)

/-! ### safe_atof (the inlined Berkeley strtod of the source), over `Rat` -/

/-- The mantissa walk of `safe_atof`: consume digits and at most one
decimal point, returning the consumed characters and the rest.  Mirrors
the first scanning loop of the source. -/
def mantWalk : List Char → Bool → List Char → List Char × List Char
  | [], _, acc => (acc.reverse, [])
  | c :: rest, seenDot, acc =>
    if isdigit c then mantWalk rest seenDot (c :: acc)
    else if c = '.' && !seenDot then mantWalk rest true (c :: acc)
    else (acc.reverse, c :: rest)

/-- `safe_atof`, following the source algorithm exactly but computing over
`Rat`: at most 18 significant digits are kept, the decimal exponent is
clamped to ±511, and the power-of-ten scaling (a table of binary powers of
ten in the source) is exact here. -/
def safe_atof (s : List Char) : Rat :=
  let p0 := s.dropWhile (fun c => isspace c)
  let (sign, p1) := match p0 with
    | '-' :: r => (true, r)
    | '+' :: r => (false, r)
    | _ => (false, p0)
  let (mantChars, pExp) := mantWalk p1 false []
  let digits := mantChars.filter (fun c => c ≠ '.')
  let decPt := match mantChars.findIdx? (fun c => c = '.') with
    | some i => i
    | none => digits.length
  let mantSize := digits.length
  let (digits18, fracExp) :=
    if mantSize > 18 then (digits.take 18, (decPt : Int) - 18)
    else (digits, (decPt : Int) - (mantSize : Int))
  if mantSize = 0 then 0
  else
    let fraction : Rat := ((digits18.foldl (fun a c => 10 * a + digitVal c) 0 : Nat) : Rat)
    let (expVal, _) :=
      match pExp with
      | 'e' :: r | 'E' :: r =>
        let (esign, r2) := match r with
          | '-' :: rr => (true, rr)
          | '+' :: rr => (false, rr)
          | _ => (false, r)
        let (en, _, r3) := decScan r2 0 0
        ((if esign then -(en : Int) else (en : Int)), r3)
      | _ => ((0 : Int), pExp)
    let exp := fracExp + expVal
    let expC : Int := if exp > 511 then 511 else if exp < -511 then -511 else exp
    let scaled : Rat :=
      if expC ≥ 0 then fraction * (10 : Rat) ^ expC.toNat
      else fraction / (10 : Rat) ^ (-expC).toNat
    if sign then -scaled else scaled

/-! ### Time conversion -/

/-- `struct tm`, the fields the source uses. -/
structure Tm where
  tm_year : Int
  tm_mon : Int
  tm_mday : Int
  tm_hour : Int
  tm_min : Int
  tm_sec : Int
  deriving DecidableEq, Repr

def cumdays : List Int := [0, 31, 59, 90, 120, 151, 181, 212, 243, 273, 304, 334]

/-- `mkutctime` from the source: struct tm to seconds since the Unix
epoch, with C truncating integer division. -/
def mkutctime (t : Tm) : Int :=
  let year := 1900 + t.tm_year + Int.tdiv t.tm_mon 12
  let monIdx := (Int.tmod t.tm_mon 12).toNat
  let r1 := (year - 1970) * 365 + cumdays.getD monIdx 0
  let r2 := r1 + Int.tdiv (year - 1968) 4
  let r3 := r2 - Int.tdiv (year - 1900) 100
  let r4 := r3 + Int.tdiv (year - 1600) 400
  let r5 :=
    if year % 4 = 0 && (year % 100 ≠ 0 || year % 400 = 0) && Int.tmod t.tm_mon 12 < 2
    then r4 - 1 else r4
  let r6 := r5 + t.tm_mday - 1
  ((((r6 * 24 + t.tm_hour) * 60) + t.tm_min) * 60) + t.tm_sec

/-- Scan at most `k` decimal digits (strptime-style numeric field). -/
def scanUpTo (k : Nat) : List Char → Nat → Nat × Nat × List Char
  | l, acc =>
    match k, l with
    | 0, _ => (acc, 0, l)
    | _, [] => (acc, 0, l)
    | k' + 1, c :: rest =>
      if isdigit c then
        let (v, n, r) := scanUpTo k' rest (10 * acc + digitVal c)
        (v, n + 1, r)
      else (acc, 0, c :: rest)

/-- Modelled from the C library contract: `strptime` with the fixed format
the source passes, `%Y-%m-%dT%H:%M:%S`. -/
def strptimeISO (l : List Char) : Option (Tm × List Char) :=
  let (yv, yn, r1) := scanUpTo 4 l 0
  if yn = 0 then none else
  match r1 with
  | '-' :: r2 =>
    let (mo, mn, r3) := scanUpTo 2 r2 0
    if mn = 0 || mo < 1 || mo > 12 then none else
    match r3 with
    | '-' :: r4 =>
      let (dv, dn, r5) := scanUpTo 2 r4 0
      if dn = 0 || dv < 1 || dv > 31 then none else
      match r5 with
      | 'T' :: r6 =>
        let (hv, hn, r7) := scanUpTo 2 r6 0
        if hn = 0 || hv > 23 then none else
        match r7 with
        | ':' :: r8 =>
          let (miv, min', r9) := scanUpTo 2 r8 0
          if min' = 0 || miv > 59 then none else
          match r9 with
          | ':' :: r10 =>
            let (sv, sn, r11) := scanUpTo 2 r10 0
            if sn = 0 || sv > 60 then none else
            some (⟨(yv : Int) - 1900, (mo : Int) - 1, dv, hv, miv, sv⟩, r11)
          | _ => none
        | _ => none
      | _ => none
    | _ => none
  | _ => none

/-- `iso8601_to_unix` from the source.  When `strptime` fails the C code
reads an uninitialized `struct tm` (undefined behaviour, unexercised by
every theorem below); that branch is modelled as 0. -/
def iso8601_to_unix (isotime : List Char) : Rat :=
  match strptimeISO isotime with
  | some (tm, dp) =>
    let usec : Rat :=
      if peekChar dp = '.' then
        match strtod dp with
        | some (q, _) => q
        | none => 0
      else 0
    (mkutctime tm : Rat) + usec
  | none => 0

/-- Modelled from the C library contract: `sscanf(buf, "%04x", &u)`.
Skips whitespace, then converts at most 4 hex digits; `none` means the
conversion failed and `u` is left unchanged. -/
def sscanf4x (l : List Char) : Option Nat :=
  let l1 := l.dropWhile (fun c => isspace c)
  if isxdigit (peekChar l1) then
    some (((l1.takeWhile isxdigit).take 4).foldl (fun a c => 16 * a + hexDigitVal c) 0)
  else none

/-! ### Error codes (mjson.h) -/

def JSON_ERR_OBSTART : Nat := 1
def JSON_ERR_ATTRSTART : Nat := 2
def JSON_ERR_BADATTR : Nat := 3
def JSON_ERR_ATTRLEN : Nat := 4
def JSON_ERR_NOARRAY : Nat := 5
def JSON_ERR_NOBRAK : Nat := 6
def JSON_ERR_STRLONG : Nat := 7
def JSON_ERR_TOKLONG : Nat := 8
def JSON_ERR_BADTRAIL : Nat := 9
def JSON_ERR_ARRAYSTART : Nat := 10
def JSON_ERR_OBJARR : Nat := 11
def JSON_ERR_SUBTOOLONG : Nat := 12
def JSON_ERR_BADSUBTRAIL : Nat := 13
def JSON_ERR_SUBTYPE : Nat := 14
def JSON_ERR_BADSTRING : Nat := 15
def JSON_ERR_CHECKFAIL : Nat := 16
def JSON_ERR_NOPARSTR : Nat := 17
def JSON_ERR_BADENUM : Nat := 18
def JSON_ERR_QNONSTRING : Nat := 19
def JSON_ERR_NONQSTRING : Nat := 19
def JSON_ERR_MISC : Nat := 20
def JSON_ERR_BADNUM : Nat := 21
def JSON_ERR_NULLPTR : Nat := 22

def JSON_ATTR_MAX : Nat := 31
def JSON_VAL_MAX : Nat := 512

/-! ### Object-reader registers, states and results -/

def trueChars : List Char := ['t', 'r', 'u', 'e']
def falseChars : List Char := ['f', 'a', 'l', 's', 'e']

/-- Sentinel attribute entry; stands for the terminating null entry of a
schema when an index lookup is out of range (unreachable in parses the
machine actually performs). -/
def nullAttr : JsonAttrT :=
  .mk [] .t_ignore 0 nullArray 0 0 0 false nulChar [] 0 [] false

/-- The mutable locals of `json_internal_read_object` that survive across
loop iterations: the schema cursor (as an index into the entry list), the
value-acceptance capacity `maxlen`, the attribute-name and value buffers,
the `value_quoted` flag, the (initially indeterminate) local `u` of the
unicode escape, and the destination memory. -/
structure Regs where
  cursorIdx : Nat
  maxlen : Int
  attrBuf : List Char
  valBuf : List Char
  value_quoted : Bool
  u : Nat
  mem : Mem

/-- Result of a parse: status code, the end cursor (`none` models a NULL
`*end`), and the destination memory. -/
structure PResult where
  status : Nat
  endp : Option (List Char)
  mem : Mem
  deriving DecidableEq

/-- A failing return: the end cursor keeps the NULL stored into it on
entry. -/
def failRes (s : Nat) (m : Mem) : PResult := ⟨s, none, m⟩

/-- The `good_parse` epilogue: consume trailing whitespace, expose the end
cursor, return 0. -/
def goodParse (cp : List Char) (m : Mem) : PResult :=
  ⟨0, some (cp.dropWhile (fun c => isspace c)), m⟩

inductive OState where
  | sInit | sAwaitAttr | sInAttr | sAwaitValue | sInValString
  | sInEscape | sInValToken | sPostVal | sPostArray
  deriving DecidableEq

/-- Rank used in the termination measure: the only transition that does
not consume a character is the token-delimiter pushback into post_val. -/
def ostRank : OState → Nat
  | .sInValToken => 1
  | _ => 0

/-- Value-acceptance capacity computed when an attribute is matched; for
kinds not in the `if` chain of the source the previous (stale) value is
kept. -/
def maxlenFor (cursor : JsonAttrT) (old : Int) : Int :=
  if cursor.type = .t_string then (cursor.len : Int) - 1
  else if cursor.type = .t_check then ((cstr cursor.dfltCheck).length : Int)
  else if cursor.type = .t_time || cursor.type = .t_ignore then (JSON_VAL_MAX : Int)
  else if cursor.map ≠ [] then ((JSON_VAL_MAX : Int) + 1) - 1
  else old

/-- The test guarding `JSON_ERR_NOPARSTR`: string storage under an
object-kind (non-structobject) array at element index above zero. -/
def noParStr (parent : Option JsonArrayT) (offset : Nat) : Bool :=
  match parent with
  | some p => p.element_type != .t_structobject && decide (0 < offset)
  | none => false

/-- One entry of the default-priming prologue. -/
def primeWrite (cursor : JsonAttrT) (parent : Option JsonArrayT) (offset : Nat)
    (m : Mem) : Except (Nat × Mem) Mem :=
  match json_target_address cursor parent offset with
  | none => .ok m
  | some a =>
    match cursor.type with
    | .t_integer => .ok (m.write a (.vint cursor.dfltInteger))
    | .t_uinteger => .ok (m.write a (.vuint cursor.dfltUinteger))
    | .t_time => .ok (m.write a (.vreal cursor.dfltReal))
    | .t_real => .ok (m.write a (.vreal cursor.dfltReal))
    | .t_string =>
      if noParStr parent offset then .error (JSON_ERR_NOPARSTR, m)
      else .ok (m.write a (.vstr []))
    | .t_boolean => .ok (m.write a (.vbool cursor.dfltBool))
    | .t_character => .ok (m.write a (.vchar cursor.dfltCharacter))
    | _ => .ok m

/-- The default-priming prologue: stuff fields with defaults in case they
are omitted in the JSON input. -/
def jsonPrime : List JsonAttrT → Option JsonArrayT → Nat → Mem →
    Except (Nat × Mem) Mem
  | [], _, _, m => .ok m
  | cur :: rest, parent, off, m =>
    if cur.nodefault then jsonPrime rest parent off m
    else
      match primeWrite cur parent off m with
      | .error e => .error e
      | .ok m' => jsonPrime rest parent off m'

/-- The type-compatibility test of the reconciliation loop in post_val:
does the scanned value syntactically fit this entry's kind? -/
def compatibleEntry (e : JsonAttrT) (valbuf : List Char) (quoted : Bool) : Bool :=
  let v := cstr valbuf
  (quoted && (e.type == JsonType.t_string || e.type == JsonType.t_time)) ||
  ((v == trueChars || v == falseChars) && e.type == JsonType.t_boolean) ||
  (isdigit (peekChar v) &&
    (if v.contains '.' then e.type == JsonType.t_real
     else (e.type == JsonType.t_integer || e.type == JsonType.t_uinteger)))

/-- The reconciliation loop: starting from the matched entry, seek forward
through adjacent entries with the same attribute name for one whose kind
fits the scanned value; stop early at the first fit, at the schema
sentinel, or at a name change.  The countdown `k` (instantiated with
`attrs.length - idx`, an upper bound on the remaining entries) only makes
the recursion structural; it cannot run out before the sentinel check. -/
def reconcileAux : Nat → List JsonAttrT → Nat → List Char → List Char → Bool → Nat
  | 0, _, idx, _, _, _ => idx
  | k + 1, attrs, idx, name, valbuf, quoted =>
    match attrs.get? idx with
    | none => idx
    | some cur =>
      if compatibleEntry cur valbuf quoted then idx
      else
        match attrs.get? (idx + 1) with
        | none => idx
        | some nxt =>
          if nxt.attrName ≠ name then idx
          else reconcileAux k attrs (idx + 1) name valbuf quoted

/-- The reconciliation loop of post_val (see `reconcileAux`). -/
def reconcileFrom (attrs : List JsonAttrT) (idx : Nat) (name valbuf : List Char)
    (quoted : Bool) : Nat :=
  reconcileAux (attrs.length - idx) attrs idx name valbuf quoted

def enumSearch : List JsonEnumT → List Char → Option Int
  | [], _ => none
  | mp :: rest, v => if mp.name == v then some mp.value else enumSearch rest v

/-- `snprintf(valbuf, sizeof(valbuf), "%d", value)`. -/
def intToChars (v : Int) : List Char := (toString v).data

/-- The value conversion-and-store switch of post_val, guarded by a
non-NULL target address. -/
def valueCommit (cursor : JsonAttrT) (parent : Option JsonArrayT) (offset : Nat)
    (valbuf : List Char) (m : Mem) : Except (Nat × Mem) Mem :=
  match json_target_address cursor parent offset with
  | none => .ok m
  | some a =>
    match cursor.type with
    | .t_integer => .ok (m.write a (.vint (atoi valbuf)))
    | .t_uinteger => .ok (m.write a (.vuint (toUInt32n (atoi valbuf))))
    | .t_time => .ok (m.write a (.vreal (iso8601_to_unix (cstr valbuf))))
    | .t_real => .ok (m.write a (.vreal (safe_atof (cstr valbuf))))
    | .t_string =>
      if noParStr parent offset then .error (JSON_ERR_NOPARSTR, m)
      else .ok (m.write a (.vstr ((cstr valbuf).take cursor.len)))
    | .t_boolean => .ok (m.write a (.vbool (cstr valbuf == trueChars)))
    | .t_character =>
      if (cstr valbuf).length > 1 then .error (JSON_ERR_STRLONG, m)
      else .ok (m.write a (.vchar (peekChar valbuf)))
    | .t_check =>
      if cstr cursor.dfltCheck ≠ cstr valbuf then .error (JSON_ERR_CHECKFAIL, m)
      else .ok m
    | _ => .ok m

/-- Everything post_val does before falling through to the trailing-
character logic: reconciliation, the quoted/unquoted legality checks, the
enum-map rewrite, and the conversion-and-store step. -/
def postValWork (attrs : List JsonAttrT) (parent : Option JsonArrayT) (offset : Nat)
    (regs : Regs) : Except (Nat × Mem) Regs :=
  let idx := reconcileFrom attrs regs.cursorIdx regs.attrBuf regs.valBuf regs.value_quoted
  let cursor := (attrs.get? idx).getD nullAttr
  if regs.value_quoted &&
     (cursor.type != JsonType.t_string && cursor.type != JsonType.t_character &&
      cursor.type != JsonType.t_check && cursor.type != JsonType.t_time &&
      cursor.type != JsonType.t_ignore && cursor.map == []) then
    .error (JSON_ERR_QNONSTRING, regs.mem)
  else if !regs.value_quoted &&
     (cursor.type == JsonType.t_string || cursor.type == JsonType.t_check ||
      cursor.type == JsonType.t_time || cursor.map != []) then
    .error (JSON_ERR_NONQSTRING, regs.mem)
  else
    let step2 : Except (Nat × Mem) (List Char) :=
      if cursor.map != [] then
        match enumSearch cursor.map (cstr regs.valBuf) with
        | some v => .ok (intToChars v)
        | none => .error (JSON_ERR_BADENUM, regs.mem)
      else .ok regs.valBuf
    match step2 with
    | .error e => .error e
    | .ok vb =>
      match valueCommit cursor parent offset vb regs.mem with
      | .error e => .error e
      | .ok m' => .ok { regs with cursorIdx := idx, valBuf := vb, mem := m' }

/-- The copy loop of the unicode escape: `uescape[n] = *cp++` with the
loop condition re-reading `cp[n]` from the already advanced pointer, so
the characters tested sit at offsets 0, 2, 4, 6 of the original position
(a position at or past the end of the list reads the NUL terminator).
This is the number of iterations the loop performs, here unrolled: the
loop runs while `n < 4` and offset `2 * n` is in range. -/
def uCopyLen (l : List Char) : Nat :=
  if l.length = 0 then 0
  else if l.length ≤ 2 then 1
  else if l.length ≤ 4 then 2
  else if l.length ≤ 6 then 3
  else 4

/-- `strncmp(cp, lit, strlen lit) == 0`: the literal is an exact prefix of
the input (a shorter input mismatches at its terminator). -/
def matchesLit : List Char → List Char → Bool
  | [], _ => true
  | _ :: _, [] => false
  | a :: as, b :: bs => a == b && matchesLit as bs

/-- The string-element copy loop of `json_read_array`: copy bytes of one
quoted string into the flat character store at `tp`, respecting the
store's remaining capacity; on the closing quote a terminator is written.
Returns the advanced store cursor, the rest of the input (just past the
closing quote) and the updated memory. -/
def arrStringCopy (sstoreBase : Nat) (storelen : Int) (tp : Nat) (cp : List Char)
    (m : Mem) : Except (Nat × Mem) (Nat × List Char × Mem) :=
  if (tp : Int) - (sstoreBase : Int) < storelen then
    match cp with
    | [] => .error (JSON_ERR_BADSTRING, m)
    | '"' :: rest => .ok (tp + 1, rest, m.write tp (.vchar nulChar))
    | c :: rest => arrStringCopy sstoreBase storelen (tp + 1) rest (m.write tp (.vchar c))
  else .error (JSON_ERR_BADSTRING, m)

/-- The `breakout` epilogue of `json_read_array`: report the element count
through the count pointer (if any) and expose the end cursor, which the
source leaves pointing at the closing bracket. -/
def arrBreakout (arr : JsonArrayT) (arrcount : Nat) (cp : List Char) (m : Mem) : PResult :=
  let m' := match arr.count with
    | some ca => m.write ca (.vint (arrcount : Int))
    | none => m
  ⟨0, some cp, m'⟩

/-! ### The object reader, the array reader and their mutual recursion.

`fuel` makes the mutual recursion structural: it is decremented on every
step, and the public wrappers supply a budget that is a generous upper
bound on the number of steps any parse of the given input can take (each
step either consumes an input character or belongs to one of the
per-character-bounded non-consuming transitions), so the fuel-exhausted
branches, which return `JSON_ERR_MISC`, are unreachable from the
wrappers. -/

mutual

/-- The state-machine loop of `json_internal_read_object`.  One call
processes the character at the head of `cp` in state `st`; the end of the
list is the NUL terminator, on which the loop falls into `good_parse`. -/
def objRun : Nat → List JsonAttrT → Option JsonArrayT → Nat → OState → Regs →
    List Char → PResult
  | 0, _, _, _, _, regs, _ => failRes JSON_ERR_MISC regs.mem
  | _ + 1, _, _, _, _, regs, [] => goodParse [] regs.mem
  | fuel + 1, attrs, parent, offset, st, regs, c :: rest =>
    match st with
    | .sInit =>
      if isspace c then objRun fuel attrs parent offset .sInit regs rest
      else if c = '{' then objRun fuel attrs parent offset .sAwaitAttr regs rest
      else failRes JSON_ERR_OBSTART regs.mem
    | .sAwaitAttr =>
      if isspace c then objRun fuel attrs parent offset .sAwaitAttr regs rest
      else if c = '"' then
        objRun fuel attrs parent offset .sInAttr { regs with attrBuf := [] } rest
      else if c = '}' then
        objRun fuel attrs parent offset .sAwaitAttr regs rest
      else failRes JSON_ERR_ATTRSTART regs.mem
    | .sInAttr =>
      if c = '"' then
        match List.findIdx? (fun e => e.attrName == regs.attrBuf) attrs with
        | none => failRes JSON_ERR_BADATTR regs.mem
        | some idx =>
          let cursor := (attrs.get? idx).getD nullAttr
          objRun fuel attrs parent offset .sAwaitValue
            { regs with cursorIdx := idx, maxlen := maxlenFor cursor regs.maxlen,
                        valBuf := [] } rest
      else if regs.attrBuf.length ≥ JSON_ATTR_MAX - 1 then
        failRes JSON_ERR_ATTRLEN regs.mem
      else
        objRun fuel attrs parent offset .sInAttr
          { regs with attrBuf := regs.attrBuf ++ [c] } rest
    | .sAwaitValue =>
      if isspace c ∨ c = ':' then
        objRun fuel attrs parent offset .sAwaitValue regs rest
      else if c = '[' then
        let cursor := (attrs.get? regs.cursorIdx).getD nullAttr
        if cursor.type ≠ .t_array then failRes JSON_ERR_NOARRAY regs.mem
        else
          let r := arrayRun fuel cursor.arrayDesc regs.mem (c :: rest)
          if r.status ≠ 0 then ⟨r.status, none, r.mem⟩
          else
            match r.endp with
            | some e =>
              objRun fuel attrs parent offset .sPostArray { regs with mem := r.mem }
                (e.drop 1)
            | none => failRes JSON_ERR_NULLPTR r.mem
      else
        let cursor := (attrs.get? regs.cursorIdx).getD nullAttr
        if cursor.type = .t_array then failRes JSON_ERR_NOBRAK regs.mem
        else if c = '"' then
          objRun fuel attrs parent offset .sInValString
            { regs with value_quoted := true, valBuf := [] } rest
        else
          objRun fuel attrs parent offset .sInValToken
            { regs with value_quoted := false, valBuf := [c] } rest
    | .sInValString =>
      if c = '\\' then objRun fuel attrs parent offset .sInEscape regs rest
      else if c = '"' then objRun fuel attrs parent offset .sPostVal regs rest
      else if regs.valBuf.length > JSON_VAL_MAX - 1 ∨
              (regs.valBuf.length : Int) > regs.maxlen then
        failRes JSON_ERR_STRLONG regs.mem
      else
        objRun fuel attrs parent offset .sInValString
          { regs with valBuf := regs.valBuf ++ [c] } rest
    | .sInEscape =>
      if c = 'u' then
        let k := uCopyLen (c :: rest)
        let u' := match sscanf4x ((c :: rest).take k) with
          | some v => v
          | none => regs.u
        objRun fuel attrs parent offset .sInValString
          { regs with u := u', valBuf := regs.valBuf ++ [Char.ofNat (u' % 256)] }
          ((c :: rest).drop k)
      else
        let ec : Char :=
          if c = 'b' then Char.ofNat 8
          else if c = 'f' then Char.ofNat 12
          else if c = 'n' then '\n'
          else if c = 'r' then '\r'
          else if c = 't' then '\t'
          else c
        objRun fuel attrs parent offset .sInValString
          { regs with valBuf := regs.valBuf ++ [ec] } rest
    | .sInValToken =>
      if isspace c ∨ c = ',' ∨ c = '}' then
        if c = '}' ∨ c = ',' then
          objRun fuel attrs parent offset .sPostVal regs (c :: rest)
        else
          objRun fuel attrs parent offset .sPostVal regs rest
      else if regs.valBuf.length > JSON_VAL_MAX - 1 then
        failRes JSON_ERR_TOKLONG regs.mem
      else
        objRun fuel attrs parent offset .sInValToken
          { regs with valBuf := regs.valBuf ++ [c] } rest
    | .sPostVal =>
      match postValWork attrs parent offset regs with
      | .error (s, m) => failRes s m
      | .ok regs' =>
        if isspace c then objRun fuel attrs parent offset .sPostVal regs' rest
        else if c = ',' then objRun fuel attrs parent offset .sAwaitAttr regs' rest
        else if c = '}' then goodParse rest regs'.mem
        else failRes JSON_ERR_BADTRAIL regs'.mem
    | .sPostArray =>
      if isspace c then objRun fuel attrs parent offset .sPostArray regs rest
      else if c = ',' then objRun fuel attrs parent offset .sAwaitAttr regs rest
      else if c = '}' then goodParse rest regs.mem
      else failRes JSON_ERR_BADTRAIL regs.mem
  termination_by structural fuel _ _ _ _ _ _ => fuel

/-- `json_internal_read_object`: give `*end` its well-defined NULL, prime
defaults, then run the state machine from `init`.  `u0` models the
indeterminate initial content of the local `u`. -/
def jsonInternalReadObject : Nat → List JsonAttrT → Option JsonArrayT → Nat →
    Nat → Mem → List Char → PResult
  | 0, _, _, _, _, m, _ => failRes JSON_ERR_MISC m
  | fuel + 1, attrs, parent, offset, u0, m, cp =>
    match jsonPrime attrs parent offset m with
    | .error (st, m') => ⟨st, none, m'⟩
    | .ok m' => objRun fuel attrs parent offset .sInit ⟨0, 0, [], [], false, u0, m'⟩ cp
  termination_by structural fuel _ _ _ _ _ _ => fuel

/-- Entry of `json_read_array`: skip whitespace, require `[`, set up the
string-store cursor, handle the empty array, then run the element loop. -/
def arrayRun : Nat → JsonArrayT → Mem → List Char → PResult
  | 0, _, m, _ => failRes JSON_ERR_MISC m
  | _ + 1, _, m, [] => failRes JSON_ERR_ARRAYSTART m
  | fuel + 1, arr, m, c :: rest =>
    if isspace c then arrayRun fuel arr m rest
    else if c ≠ '[' then failRes JSON_ERR_ARRAYSTART m
    else
      let cp1 := rest.dropWhile (fun ch => isspace ch)
      if peekChar cp1 = ']' then arrBreakout arr 0 cp1 m
      else arrayElems fuel arr arr.sstore 0 0 m cp1
  termination_by structural fuel _ _ _ => fuel

/-- The element loop of `json_read_array` from element index `offset`,
with string-store cursor `tp` and `arrcount` elements consumed so far. -/
def arrayElems : Nat → JsonArrayT → Nat → Nat → Nat → Mem → List Char → PResult
  | 0, _, _, _, _, m, _ => failRes JSON_ERR_MISC m
  | fuel + 1, arr, tp, offset, arrcount, m, cp =>
    if (offset : Int) < arr.maxlen then
      let step : Except PResult (Nat × List Char × Mem) :=
        match arr.element_type with
        | .t_string =>
          let cpA := if isspace (peekChar cp) then cp.drop 1 else cp
          if peekChar cpA = '"' then
            let m1 := m.write (arr.ptrs + offset * 8) (.vptr tp)
            match arrStringCopy arr.sstore arr.storelen tp (cpA.drop 1) m1 with
            | .error (st, m2) => .error (failRes st m2)
            | .ok (tp', cpC, m2) => .ok (tp', cpC, m2)
          else .error (failRes JSON_ERR_BADSTRING m)
        | .t_object | .t_structobject =>
          let r := jsonInternalReadObject fuel arr.subtype (some arr) offset 0 m cp
          if r.status ≠ 0 then .error ⟨r.status, none, r.mem⟩
          else
            match r.endp with
            | some e => .ok (tp, e, r.mem)
            | none => .error (failRes JSON_ERR_NULLPTR r.mem)
        | .t_integer =>
          -- the store happens before the ep == cp check, so a failed
          -- conversion (strtol contract: result 0, ep == cp) still writes
          -- 0 into the element slot
          match strtol cp with
          | none =>
            .error (failRes JSON_ERR_BADNUM
              (m.write (arr.store + offset * 4) (.vint (toInt32 0))))
          | some (v, cp') =>
            .ok (tp, cp', m.write (arr.store + offset * 4) (.vint (toInt32 v)))
        | .t_uinteger =>
          match strtoul cp with
          | none =>
            .error (failRes JSON_ERR_BADNUM
              (m.write (arr.store + offset * 4) (.vuint (0 % 4294967296))))
          | some (v, cp') =>
            .ok (tp, cp', m.write (arr.store + offset * 4) (.vuint (v % 4294967296)))
        | .t_real =>
          match strtod cp with
          | none =>
            .error (failRes JSON_ERR_BADNUM
              (m.write (arr.store + offset * 8) (.vreal 0)))
          | some (v, cp') =>
            .ok (tp, cp', m.write (arr.store + offset * 8) (.vreal v))
        | .t_boolean =>
          if matchesLit trueChars cp then
            .ok (tp, cp.drop 4, m.write (arr.store + offset) (.vbool true))
          else if matchesLit falseChars cp then
            .ok (tp, cp.drop 5, m.write (arr.store + offset) (.vbool false))
          else
            .ok (tp, cp, m)
        | .t_time | .t_character | .t_array | .t_check | .t_ignore =>
          .error (failRes JSON_ERR_SUBTYPE m)
        | .t_short | .t_ushort =>
          .ok (tp, cp, m)
      match step with
      | .error r => r
      | .ok (tp', cp2, m2) =>
        let cp3 := if isspace (peekChar cp2) then cp2.drop 1 else cp2
        if peekChar cp3 = ']' then arrBreakout arr (arrcount + 1) cp3 m2
        else if peekChar cp3 = ',' then
          arrayElems fuel arr tp' (offset + 1) (arrcount + 1) m2 (cp3.drop 1)
        else failRes JSON_ERR_BADSUBTRAIL m2
    else failRes JSON_ERR_SUBTOOLONG m
  termination_by structural fuel _ _ _ _ _ _ => fuel

end

/-- `json_read_object`: the public entry point for objects.  `u0` models
the indeterminate initial value of the escape-conversion local, `m0` the
prior contents of caller storage. -/
def json_read_object (cp : List Char) (attrs : List JsonAttrT) (u0 : Nat)
    (m0 : Mem) : PResult :=
  jsonInternalReadObject (8 * cp.length + 16) attrs none 0 u0 m0 cp

/-- `json_read_array`: the public entry point for arrays. -/
def json_read_array (cp : List Char) (arr : JsonArrayT) (m0 : Mem) : PResult :=
  arrayRun (8 * cp.length + 16) arr m0 cp

/-! ### Shared concrete-schema helpers -/

/-- A scalar schema entry with default-suppression clear and all defaults
zero. -/
def scalarEntry (nm : List Char) (t : JsonType) (a : Nat) : JsonAttrT :=
  .mk nm t a nullArray 0 0 0 false nulChar [] 0 [] false

/-- A string schema entry with buffer capacity `len`. -/
def stringEntry (nm : List Char) (a : Nat) (len : Nat) : JsonAttrT :=
  .mk nm .t_string a nullArray 0 0 0 false nulChar [] len [] false

/-! ### Claim C3: the address resolver -/

/-- C3: the address resolver is total and side-effect-free (it is a pure
Lean function by construction); when the enclosing array context is of
structobject kind it returns `array_base + i * stride + field_offset`
where the field offset is the entry's destination read as a byte offset;
and in an ordinary context the kinds the resolver does not recognize
(the `default` arm: object, structobject, array, check, short, ushort)
yield no destination. -/
theorem claim_C3 :
    (∀ (cursor : JsonAttrT) (parr : JsonArrayT) (i : Nat),
       parr.element_type = .t_structobject →
       json_target_address cursor (some parr) i =
         some (parr.base + i * parr.stride + cursor.addr)) ∧
    (∀ (cursor : JsonAttrT) (parent : Option JsonArrayT) (i : Nat),
       (∀ parr, parent = some parr → parr.element_type ≠ .t_structobject) →
       (cursor.type = .t_object ∨ cursor.type = .t_structobject ∨
        cursor.type = .t_array ∨ cursor.type = .t_check ∨
        cursor.type = .t_short ∨ cursor.type = .t_ushort) →
       json_target_address cursor parent i = none) := by
  constructor
  · intro cursor parr i h
    simp [json_target_address, h]
  · intro cursor parent i hp ht
    have hord : ordinaryTarget cursor i = none := by
      rcases ht with h | h | h | h | h | h <;> simp [ordinaryTarget, h]
    cases parent with
    | none => simpa [json_target_address] using hord
    | some parr =>
      have hne := hp parr rfl
      simp [json_target_address, hne, hord]

/-- Witness for C3 at concrete inputs: a structobject member resolves to
base + i * stride + offset, and a short-kind entry has no destination. -/
theorem claim_C3_witness :
    json_target_address (scalarEntry ['x'] .t_integer 4)
      (some (JsonArrayT.mk .t_structobject [] 1000 16 0 0 0 0 none 2)) 1 = some 1020 ∧
    json_target_address (scalarEntry ['x'] .t_short 700) none 0 = none := by
  constructor
  · have h := claim_C3.1 (scalarEntry ['x'] .t_integer 4)
      (JsonArrayT.mk .t_structobject [] 1000 16 0 0 0 0 none 2) 1 (by decide)
    simpa using h
  · exact claim_C3.2 (scalarEntry ['x'] .t_short 700) none 0
      (by intro parr h; cases h) (by decide)

/-! ### Claim C9: short and ushort kinds -/

def c9input : List Char := ['{', '"', 'x', '"', ':', '7', '}']

/-- C9 (code-bug evidence): the header declares the short and ushort
kinds with 16-bit destinations, but the parser never implemented them:
the resolver's `default` arm returns no destination for them, so parsing
an attribute of short (or ushort) kind succeeds without storing anything
at all — the write journal stays empty. -/
theorem claim_C9 :
    (json_read_object c9input [scalarEntry ['x'] .t_short 700] 0 []).status = 0 ∧
    (json_read_object c9input [scalarEntry ['x'] .t_short 700] 0 []).mem = [] ∧
    Mem.read (json_read_object c9input [scalarEntry ['x'] .t_short 700] 0 []).mem 700 =
      CVal.undef ∧
    (json_read_object c9input [scalarEntry ['x'] .t_ushort 700] 0 []).mem = [] ∧
    json_target_address (scalarEntry ['x'] .t_short 700) none 0 = none ∧
    json_target_address (scalarEntry ['x'] .t_ushort 700) none 0 = none := by
  decide

/-! ### Claim C8: the unicode escape -/

def c8attrs : List JsonAttrT := [stringEntry ['s'] 600 10]

def c8input : List Char :=
  ['{', '"', 's', '"', ':', '"', '\\', 'u', '0', '0', '4', '1', '"', '}']

/-- C8 (code-bug evidence): on the escape `A` the copy loop stores
`u`, `0`, `0`, `4` into the conversion buffer and leaves the fourth hex
digit in the input, so the `%04x` conversion fails on the leading `u` and
the appended byte keeps the indeterminate initial value of the local `u`
(modelled by the `u0` parameter; `65` and `0` shown here), and the digit
`1` is then copied as an ordinary string character.  The specified
behaviour — consume exactly the four digits and append the code point's
low byte, here `A` — never happens: with garbage 65 the stored string is
`A1`, with garbage 0 the appended NUL truncates the stored string to
empty. -/
theorem claim_C8 :
    (json_read_object c8input c8attrs 65 []).status = 0 ∧
    Mem.read (json_read_object c8input c8attrs 65 []).mem 600 = CVal.vstr ['A', '1'] ∧
    (json_read_object c8input c8attrs 0 []).status = 0 ∧
    Mem.read (json_read_object c8input c8attrs 0 []).mem 600 = CVal.vstr [] ∧
    Mem.read (json_read_object c8input c8attrs 65 []).mem 600 ≠ CVal.vstr ['A'] ∧
    Mem.read (json_read_object c8input c8attrs 0 []).mem 600 ≠ CVal.vstr ['A'] := by
  decide

/-! ### Character-class facts used by the universal lemmas -/

theorem isdigit_isspace_false (c : Char) (h : isdigit c = true) : isspace c = false := by
  simp only [isspace, Bool.or_eq_false_iff, decide_eq_false_iff_not]
  refine ⟨⟨⟨⟨⟨?_, ?_⟩, ?_⟩, ?_⟩, ?_⟩, ?_⟩ <;> rintro rfl <;> exact absurd h (by decide)

theorem isdigit_ne (c : Char) (h : isdigit c = true) (d : Char)
    (hd : isdigit d = false) : c ≠ d := by
  rintro rfl
  rw [h] at hd
  exact Bool.noConfusion hd

/-! ### strtol / strtoul / strtod failure on a non-numeric head -/

theorem strtol_none_head (c : Char) (rest : List Char) (hs : isspace c = false)
    (hd : isdigit c = false) (hp : c ≠ '+') (hm : c ≠ '-') :
    strtol (c :: rest) = none := by
  have h0 : c ≠ '0' := by rintro rfl; exact absurd hd (by decide)
  simp [strtol, List.dropWhile_cons, hs, peekChar, hp, hm, h0, hd]

theorem strtoul_none_head (c : Char) (rest : List Char) (hs : isspace c = false)
    (hd : isdigit c = false) (hp : c ≠ '+') (hm : c ≠ '-') :
    strtoul (c :: rest) = none := by
  have h0 : c ≠ '0' := by rintro rfl; exact absurd hd (by decide)
  simp [strtoul, List.dropWhile_cons, hs, peekChar, hp, hm, h0, hd]

theorem strtod_none_head (c : Char) (rest : List Char) (hs : isspace c = false)
    (hd : isdigit c = false) (hp : c ≠ '+') (hm : c ≠ '-') (hdot : c ≠ '.') :
    strtod (c :: rest) = none := by
  simp [strtod, List.dropWhile_cons, hs, peekChar, hp, hm, decScan, hd, hdot]

/-! ### Entry lemma for the array reader on a bracketed, nonempty input -/

theorem readArray_start (arr : JsonArrayT) (c : Char) (rest : List Char) (m0 : Mem)
    (hs : isspace c = false) (hb : c ≠ ']') :
    json_read_array ('[' :: c :: rest) arr m0 =
      arrayElems (8 * rest.length + 31) arr arr.sstore 0 0 m0 (c :: rest) := by
  unfold json_read_array
  rw [show 8 * (('[' :: c :: rest).length) + 16 = (8 * rest.length + 31) + 1 by
    simp; omega]
  simp +decide [arrayRun, List.dropWhile_cons, hs, peekChar, hb]

theorem read_write_hit (m : Mem) (a : Nat) (v : CVal) :
    Mem.read (m.write a v) a = v := by
  simp [Mem.read, Mem.write, List.find?]

theorem read_write_miss (m : Mem) (a b : Nat) (v : CVal) (h : b ≠ a) :
    Mem.read (m.write a v) b = Mem.read m b := by
  have hb : (a == b) = false := beq_eq_false_iff_ne.mpr (Ne.symm h)
  simp [Mem.read, Mem.write, List.find?, hb]

/-! ### Claim C5: element-kind disagreement in arrays -/

def c5intArr : JsonArrayT := .mk .t_integer [] 0 0 0 0 0 200 (some 100) 3
def c5uintArr : JsonArrayT := .mk .t_uinteger [] 0 0 0 0 0 200 (some 100) 3
def c5realArr : JsonArrayT := .mk .t_real [] 0 0 0 0 0 200 (some 100) 3
def c5boolArr : JsonArrayT := .mk .t_boolean [] 0 0 0 0 0 200 (some 100) 3

/-- An array descriptor of the given element kind, for the five kinds the
element switch rejects with the subtype error. -/
def c5subArr (et : JsonType) : JsonArrayT := .mk et [] 0 0 0 0 0 200 (some 100) 3

/-- C5 (counterexample to the claim as stated): for a boolean-kind array,
the input `[1]` — a number where a boolean is declared — fails with
bad-subtrail (13), which is neither the subtype error (14) nor bad-number
(21): the boolean matcher silently matches nothing and the trailing-syntax
check then fails. -/
theorem claim_C5_counterexample :
    (json_read_array ['[', '1', ']'] c5boolArr []).status = JSON_ERR_BADSUBTRAIL ∧
    JSON_ERR_BADSUBTRAIL ≠ JSON_ERR_SUBTYPE ∧
    JSON_ERR_BADSUBTRAIL ≠ JSON_ERR_BADNUM := by
  decide

/-- C5 as amended: an element that cannot begin a number in an integer-,
uinteger- or real-kind array fails with bad-number, and — because the
store into the element bank happens before the failed-conversion check —
the element slot receives the failed conversion's result 0, while the
count-output location keeps its prior contents; a numeric element in a
boolean-kind array is not matched by the boolean matcher and surfaces as
bad-subtrail with memory untouched; a declared element kind of time,
character, nested array, check or ignore fails with the subtype error
with memory untouched.  In every case the count-output is not updated on
failure. -/
theorem claim_C5 :
    (∀ (c : Char) (rest : List Char) (m0 : Mem), isspace c = false →
       isdigit c = false → c ≠ '+' → c ≠ '-' → c ≠ ']' →
       json_read_array ('[' :: c :: rest) c5intArr m0 =
         failRes JSON_ERR_BADNUM (m0.write 200 (CVal.vint 0)) ∧
       Mem.read (json_read_array ('[' :: c :: rest) c5intArr m0).mem 100 =
         Mem.read m0 100) ∧
    (∀ (c : Char) (rest : List Char) (m0 : Mem), isspace c = false →
       isdigit c = false → c ≠ '+' → c ≠ '-' → c ≠ ']' →
       json_read_array ('[' :: c :: rest) c5uintArr m0 =
         failRes JSON_ERR_BADNUM (m0.write 200 (CVal.vuint 0)) ∧
       Mem.read (json_read_array ('[' :: c :: rest) c5uintArr m0).mem 100 =
         Mem.read m0 100) ∧
    (∀ (c : Char) (rest : List Char) (m0 : Mem), isspace c = false →
       isdigit c = false → c ≠ '+' → c ≠ '-' → c ≠ '.' → c ≠ ']' →
       json_read_array ('[' :: c :: rest) c5realArr m0 =
         failRes JSON_ERR_BADNUM (m0.write 200 (CVal.vreal 0)) ∧
       Mem.read (json_read_array ('[' :: c :: rest) c5realArr m0).mem 100 =
         Mem.read m0 100) ∧
    (∀ (c : Char) (rest : List Char) (m0 : Mem), isdigit c = true →
       json_read_array ('[' :: c :: rest) c5boolArr m0 =
         failRes JSON_ERR_BADSUBTRAIL m0) ∧
    (∀ (et : JsonType),
       et = .t_time ∨ et = .t_character ∨ et = .t_array ∨ et = .t_check ∨
         et = .t_ignore →
       ∀ (c : Char) (rest : List Char) (m0 : Mem), isspace c = false → c ≠ ']' →
       json_read_array ('[' :: c :: rest) (c5subArr et) m0 =
         failRes JSON_ERR_SUBTYPE m0) := by
  refine ⟨?_, ?_, ?_, ?_, ?_⟩
  · intro c rest m0 hs hd hp hm hb
    have hres : json_read_array ('[' :: c :: rest) c5intArr m0 =
        failRes JSON_ERR_BADNUM (m0.write 200 (CVal.vint 0)) := by
      rw [readArray_start c5intArr c rest m0 hs hb,
        show 8 * rest.length + 31 = (8 * rest.length + 30) + 1 by omega]
      simp [arrayElems, c5intArr, JsonArrayT.element_type, JsonArrayT.maxlen,
        JsonArrayT.store, strtol_none_head c rest hs hd hp hm,
        show toInt32 0 = 0 from by decide]
    exact ⟨hres, by rw [hres]; exact read_write_miss m0 200 100 _ (by decide)⟩
  · intro c rest m0 hs hd hp hm hb
    have hres : json_read_array ('[' :: c :: rest) c5uintArr m0 =
        failRes JSON_ERR_BADNUM (m0.write 200 (CVal.vuint 0)) := by
      rw [readArray_start c5uintArr c rest m0 hs hb,
        show 8 * rest.length + 31 = (8 * rest.length + 30) + 1 by omega]
      simp [arrayElems, c5uintArr, JsonArrayT.element_type, JsonArrayT.maxlen,
        JsonArrayT.store, strtoul_none_head c rest hs hd hp hm]
    exact ⟨hres, by rw [hres]; exact read_write_miss m0 200 100 _ (by decide)⟩
  · intro c rest m0 hs hd hp hm hdot hb
    have hres : json_read_array ('[' :: c :: rest) c5realArr m0 =
        failRes JSON_ERR_BADNUM (m0.write 200 (CVal.vreal 0)) := by
      rw [readArray_start c5realArr c rest m0 hs hb,
        show 8 * rest.length + 31 = (8 * rest.length + 30) + 1 by omega]
      simp [arrayElems, c5realArr, JsonArrayT.element_type, JsonArrayT.maxlen,
        JsonArrayT.store, strtod_none_head c rest hs hd hp hm hdot]
    exact ⟨hres, by rw [hres]; exact read_write_miss m0 200 100 _ (by decide)⟩
  · intro c rest m0 hd
    have hs := isdigit_isspace_false c hd
    have hb : c ≠ ']' := isdigit_ne c hd ']' (by decide)
    have ht : c ≠ 't' := isdigit_ne c hd 't' (by decide)
    have hf : c ≠ 'f' := isdigit_ne c hd 'f' (by decide)
    have hcm : c ≠ ',' := isdigit_ne c hd ',' (by decide)
    rw [readArray_start c5boolArr c rest m0 hs hb,
      show 8 * rest.length + 31 = (8 * rest.length + 30) + 1 by omega]
    simp [arrayElems, c5boolArr, JsonArrayT.element_type, JsonArrayT.maxlen,
      matchesLit, trueChars, falseChars, ht, hf, Ne.symm ht, Ne.symm hf, peekChar,
      hs, hb, hcm]
  · rintro et (rfl | rfl | rfl | rfl | rfl)
    all_goals
      intro c rest m0 hs hb
      rw [readArray_start (c5subArr _) c rest m0 hs hb,
        show 8 * rest.length + 31 = (8 * rest.length + 30) + 1 by omega]
      simp [arrayElems, c5subArr, JsonArrayT.element_type, JsonArrayT.maxlen]

/-- Witness for C5 at concrete inputs: `[true]` in an int array (0 is
stored into the element slot, the count slot keeps its prior reading),
`[t]` in a uint array, `[x]` in a real array, `[1]` in a boolean array,
`[1]` in time- and character-kind arrays. -/
theorem claim_C5_witness :
    json_read_array ['[', 't', 'r', 'u', 'e', ']'] c5intArr [] =
      failRes JSON_ERR_BADNUM (Mem.write [] 200 (CVal.vint 0)) ∧
    Mem.read (json_read_array ['[', 't', 'r', 'u', 'e', ']'] c5intArr []).mem 100 =
      Mem.read [] 100 ∧
    json_read_array ['[', 't', ']'] c5uintArr [] =
      failRes JSON_ERR_BADNUM (Mem.write [] 200 (CVal.vuint 0)) ∧
    json_read_array ['[', 'x', ']'] c5realArr [] =
      failRes JSON_ERR_BADNUM (Mem.write [] 200 (CVal.vreal 0)) ∧
    json_read_array ['[', '1', ']'] c5boolArr [] = failRes JSON_ERR_BADSUBTRAIL [] ∧
    json_read_array ['[', '1', ']'] (c5subArr .t_time) [] =
      failRes JSON_ERR_SUBTYPE [] ∧
    json_read_array ['[', '1', ']'] (c5subArr .t_character) [] =
      failRes JSON_ERR_SUBTYPE [] := by
  refine ⟨?_, ?_, ?_, ?_, ?_, ?_, ?_⟩
  · exact (claim_C5.1 't' ['r', 'u', 'e', ']'] [] (by decide) (by decide) (by decide)
      (by decide) (by decide)).1
  · exact (claim_C5.1 't' ['r', 'u', 'e', ']'] [] (by decide) (by decide) (by decide)
      (by decide) (by decide)).2
  · exact (claim_C5.2.1 't' [']'] [] (by decide) (by decide) (by decide) (by decide)
      (by decide)).1
  · exact (claim_C5.2.2.1 'x' [']'] [] (by decide) (by decide) (by decide) (by decide)
      (by decide) (by decide)).1
  · exact claim_C5.2.2.2.1 '1' [']'] [] (by decide)
  · exact claim_C5.2.2.2.2 .t_time (Or.inl rfl) '1' [']'] [] (by decide) (by decide)
  · exact claim_C5.2.2.2.2 .t_character (Or.inr (Or.inl rfl)) '1' [']'] []
      (by decide) (by decide)

/-! ### Claim C4: too many elements in an integer array -/

/-- Value of a decimal digit string. -/
def decVal (d : List Char) : Nat := d.foldl (fun a c => 10 * a + digitVal c) 0

/-- Canonical rendering of the elements of a JSON array, separated by
commas. -/
def joinComma : List (List Char) → List Char
  | [] => []
  | [d] => d
  | d :: ds => d ++ ',' :: joinComma ds

theorem joinComma_cons (d : List Char) (ds : List (List Char)) (h : ds ≠ []) :
    joinComma (d :: ds) = d ++ ',' :: joinComma ds := by
  cases ds with
  | nil => exact absurd rfl h
  | cons e es => rfl

theorem joinComma_length_ge (ds : List (List Char)) (h : ∀ d ∈ ds, d ≠ []) :
    ds.length ≤ (joinComma ds).length := by
  induction ds with
  | nil => simp [joinComma]
  | cons d ds ih =>
    cases ds with
    | nil =>
      have := h d (List.mem_cons_self ..)
      have : 0 < d.length := List.length_pos.mpr this
      simpa [joinComma] using this
    | cons e es =>
      rw [joinComma_cons d (e :: es) (by simp)]
      have hd := h d (List.mem_cons_self ..)
      have h1 : 0 < d.length := List.length_pos.mpr hd
      have h2 := ih (fun x hx => h x (List.mem_cons_of_mem _ hx))
      simp only [List.length_append, List.length_cons] at h2 ⊢
      omega

/-- The journal produced by storing the values of `ds` into consecutive
int slots starting at index `k` of the bank at byte address `S`. -/
def intWrites (S : Nat) : Nat → List (List Char) → Mem → Mem
  | _, [], m => m
  | k, d :: ds, m => intWrites S (k + 1) ds (m.write (S + 4 * k) (.vint (decVal d)))

theorem intWrites_read_miss (S : Nat) (ds : List (List Char)) (k : Nat) (mem : Mem)
    (a : Nat) (h : ∀ j, k ≤ j → j < k + ds.length → a ≠ S + 4 * j) :
    Mem.read (intWrites S k ds mem) a = Mem.read mem a := by
  induction ds generalizing k mem with
  | nil => rfl
  | cons d ds ih =>
    rw [intWrites, ih (k + 1) _
        (fun j h1 h2 => h j (by omega) (by simp only [List.length_cons]; omega)),
      read_write_miss _ _ _ _ (h k (le_refl k) (by simp only [List.length_cons]; omega))]

theorem intWrites_read_hit (S : Nat) (ds : List (List Char)) (k : Nat) (mem : Mem)
    (i : Nat) (hik : k ≤ i) (hlt : i < k + ds.length) :
    Mem.read (intWrites S k ds mem) (S + 4 * i) =
      CVal.vint (decVal (ds.getD (i - k) [])) := by
  induction ds generalizing k mem with
  | nil => simp at hlt; omega
  | cons d ds ih =>
    rcases Nat.eq_or_lt_of_le hik with rfl | hlt2
    · rw [intWrites, intWrites_read_miss S ds (k + 1) _ _ (fun j h1 h2 => by omega),
        read_write_hit]
      simp
    · rw [intWrites, ih (k + 1) _ hlt2 (by simp at hlt ⊢; omega)]
      have h1 : i - k = (i - (k + 1)) + 1 := by omega
      simp [h1]

theorem scanDigits_append (d : List Char) (hd : ∀ c ∈ d, isdigit c = true)
    (x : Char) (hx : isdigit x = false) (xs : List Char) (acc : Nat) :
    scanDigits isdigit digitVal 10 (d ++ x :: xs) acc =
      (d.foldl (fun a c => 10 * a + digitVal c) acc, x :: xs) := by
  induction d generalizing acc with
  | nil => simp [scanDigits, hx]
  | cons c d' ih =>
    have hc := hd c (List.mem_cons_self ..)
    simp [scanDigits, hc, ih (fun e he => hd e (List.mem_cons_of_mem _ he))]

/-- `strtol` on a canonically rendered decimal numeral followed by a comma
or a closing bracket converts exactly the numeral. -/
theorem strtol_digits (d : List Char) (x : Char) (xs : List Char)
    (hne : d ≠ []) (hd : ∀ c ∈ d, isdigit c = true)
    (hcanon : peekChar d ≠ '0' ∨ d = ['0'])
    (hx : x = ',' ∨ x = ']')
    (hsmall : (decVal d : Int) ≤ LONG_MAX) :
    strtol (d ++ x :: xs) = some ((decVal d : Int), x :: xs) := by
  obtain ⟨c0, d', rfl⟩ : ∃ c0 d', d = c0 :: d' := by
    cases d with
    | nil => exact absurd rfl hne
    | cons a b => exact ⟨a, b, rfl⟩
  have hc0 : isdigit c0 = true := hd c0 (List.mem_cons_self ..)
  have hs0 : isspace c0 = false := isdigit_isspace_false c0 hc0
  have hxd : isdigit x = false := by rcases hx with rfl | rfl <;> decide
  have hm : c0 ≠ '-' := isdigit_ne c0 hc0 '-' (by decide)
  have hp : c0 ≠ '+' := isdigit_ne c0 hc0 '+' (by decide)
  have hclamp : clampLong ((decVal (c0 :: d') : Nat) : Int) = (decVal (c0 :: d') : Nat) := by
    simp only [clampLong, LONG_MAX, LONG_MIN] at hsmall ⊢
    have h1 : (0 : Int) ≤ ((decVal (c0 :: d') : Nat) : Int) := Int.ofNat_nonneg _
    rw [if_neg (by omega), if_neg (by omega)]
  rcases hcanon with h0 | h0
  · simp only [peekChar, List.headD] at h0
    have hscan := scanDigits_append (c0 :: d') hd x hxd xs 0
    simp only [List.cons_append] at hscan
    simp only [decVal, List.foldl_cons, Nat.mul_zero, Nat.zero_add] at hclamp
    simp [strtol, List.dropWhile_cons, hs0, peekChar, hm, hp, h0, hc0, hscan,
      decVal, hclamp]
  · obtain ⟨rfl, rfl⟩ := List.cons_eq_cons.mp h0
    have hxo : isodigit x = false := by rcases hx with rfl | rfl <;> decide
    have hxx : x ≠ 'x' ∧ x ≠ 'X' := by rcases hx with rfl | rfl <;> exact ⟨by decide, by decide⟩
    simp +decide [strtol, List.dropWhile_cons, peekChar, scanDigits, hxo, hxx.1, hxx.2,
      decVal, digitVal, clampLong, LONG_MAX, LONG_MIN]

theorem toInt32_small (v : Int) (h0 : 0 ≤ v) (h1 : v < 2147483648) : toInt32 v = v := by
  unfold toInt32
  omega

/-- Well-formed canonical decimal numeral whose value fits in int. -/
def goodNum (d : List Char) : Prop :=
  d ≠ [] ∧ (∀ c ∈ d, isdigit c = true) ∧ (peekChar d ≠ '0' ∨ d = ['0']) ∧
    decVal d < 2147483648

instance (d : List Char) : Decidable (goodNum d) := by
  unfold goodNum; infer_instance

/-- The integer array schema of C4: store bank at byte address `S`,
count-output at `CA`, declared maximum `mlNat`. -/
def c4arr (S CA mlNat : Nat) : JsonArrayT :=
  .mk .t_integer [] 0 0 0 0 0 S (some CA) (mlNat : Int)

theorem take_getD (ds : List (List Char)) (n i : Nat) (h : i < n) :
    (ds.take n).getD i [] = ds.getD i [] := by
  induction ds generalizing n i with
  | nil => simp
  | cons d ds ih =>
    cases n with
    | zero => omega
    | succ n =>
      cases i with
      | zero => simp
      | succ i => simpa using ih n i (by omega)

/-- Element loop of the integer array on canonically rendered numerals,
starting at element index `k` with more elements remaining than the
declared maximum allows: the loop stores elements `k, k+1, ...` until the
index would reach the maximum, then fails with too-many-elements; the
count-output is never touched. -/
theorem arrayElems_int_run (S CA mlNat : Nat) (ds : List (List Char)) :
    ∀ (k arrc tp f : Nat) (mem : Mem),
      ds ≠ [] → (∀ d ∈ ds, goodNum d) → mlNat < k + ds.length → k ≤ mlNat →
      mlNat + 1 ≤ f + k →
      arrayElems f (c4arr S CA mlNat) tp k arrc mem (joinComma ds ++ [']']) =
        failRes JSON_ERR_SUBTOOLONG (intWrites S k (ds.take (mlNat - k)) mem) := by
  induction ds with
  | nil => intro _ _ _ _ _ hne; exact absurd rfl hne
  | cons d ds' ih =>
    intro k arrc tp f mem hne hg hover hkle hf
    obtain ⟨f', rfl⟩ : ∃ f', f = f' + 1 := ⟨f - 1, by omega⟩
    rcases Nat.lt_or_ge k mlNat with hk | hk
    · cases ds' with
      | nil => simp at hover; omega
      | cons e es =>
        obtain ⟨hdne, hdd, hdc, hdsmall⟩ := hg d (List.mem_cons_self ..)
        rw [joinComma_cons d (e :: es) (by simp)]
        have hstl := strtol_digits d ',' (joinComma (e :: es) ++ [']']) hdne hdd hdc
          (Or.inl rfl) (by simp only [LONG_MAX]; omega)
        have hcond : ((k : Nat) : Int) < (mlNat : Int) := by exact_mod_cast hk
        have harr : List.append (d ++ ',' :: joinComma (e :: es)) [']'] =
            d ++ ',' :: (joinComma (e :: es) ++ [']']) := by simp
        have hrec := ih (k + 1) (arrc + 1) tp f'
          (mem.write (S + 4 * k) (.vint (decVal d)))
          (by simp) (fun x hx => hg x (List.mem_cons_of_mem _ hx))
          (by simp only [List.length_cons] at hover ⊢; omega) (by omega) (by omega)
        calc arrayElems (f' + 1) (c4arr S CA mlNat) tp k arrc mem
              ((d ++ ',' :: joinComma (e :: es)) ++ [']'])
            = arrayElems f' (c4arr S CA mlNat) tp (k + 1) (arrc + 1)
                (mem.write (S + 4 * k) (.vint (decVal d)))
                (joinComma (e :: es) ++ [']']) := by
              simp +decide [arrayElems, c4arr, JsonArrayT.element_type,
                JsonArrayT.maxlen, JsonArrayT.store, hcond, harr, hstl, peekChar,
                Nat.mul_comm,
                toInt32_small ((decVal d : Nat) : Int) (Int.ofNat_nonneg _)
                  (by exact_mod_cast hdsmall)]
          _ = failRes JSON_ERR_SUBTOOLONG
                (intWrites S (k + 1) ((e :: es).take (mlNat - (k + 1)))
                  (mem.write (S + 4 * k) (.vint (decVal d)))) := hrec
          _ = failRes JSON_ERR_SUBTOOLONG
                (intWrites S k ((d :: e :: es).take (mlNat - k)) mem) := by
              rw [show mlNat - k = (mlNat - (k + 1)) + 1 by omega]
              rfl
    · have hcond : ¬(((k : Nat) : Int) < (mlNat : Int)) := by
        exact_mod_cast Nat.not_lt.mpr hk
      simp [arrayElems, c4arr, JsonArrayT.maxlen, hcond,
        Nat.sub_eq_zero_of_le hk, intWrites]

/-- C4: for an integer-element array schema with declared maximum `mlNat`
and any canonically rendered well-formed input array with more than
`mlNat` elements, `json_read_array` returns the too-many-elements status
with a NULL end cursor, the first `mlNat` elements have been written to
the destination bank in input order starting at slot 0, and the
count-output location still reads exactly as it did before the call. -/
theorem claim_C4 (ds : List (List Char)) (S CA mlNat : Nat) (m0 : Mem)
    (hgt : mlNat < ds.length)
    (hds : ∀ d ∈ ds, goodNum d)
    (hdisj : ∀ i, i < mlNat → S + 4 * i ≠ CA) :
    (json_read_array ('[' :: (joinComma ds ++ [']'])) (c4arr S CA mlNat) m0).status =
      JSON_ERR_SUBTOOLONG ∧
    (json_read_array ('[' :: (joinComma ds ++ [']'])) (c4arr S CA mlNat) m0).endp =
      none ∧
    (∀ i, i < mlNat →
      Mem.read (json_read_array ('[' :: (joinComma ds ++ [']']))
          (c4arr S CA mlNat) m0).mem (S + 4 * i) =
        CVal.vint (decVal (ds.getD i []))) ∧
    Mem.read (json_read_array ('[' :: (joinComma ds ++ [']']))
        (c4arr S CA mlNat) m0).mem CA = Mem.read m0 CA := by
  obtain ⟨d, ds'', rfl⟩ : ∃ d ds'', ds = d :: ds'' := by
    cases ds with
    | nil => simp at hgt
    | cons a b => exact ⟨a, b, rfl⟩
  obtain ⟨hdne, hdd, _, _⟩ := hds d (List.mem_cons_self ..)
  obtain ⟨c0, d0, rfl⟩ : ∃ c0 d0, d = c0 :: d0 := by
    cases d with
    | nil => exact absurd rfl hdne
    | cons a b => exact ⟨a, b, rfl⟩
  have hc0 : isdigit c0 = true := hdd c0 (List.mem_cons_self ..)
  obtain ⟨t, ht⟩ : ∃ t, joinComma ((c0 :: d0) :: ds'') = (c0 :: d0) ++ t := by
    cases ds'' with
    | nil => exact ⟨[], by simp [joinComma]⟩
    | cons e es => exact ⟨',' :: joinComma (e :: es), rfl⟩
  have hshape : joinComma ((c0 :: d0) :: ds'') ++ [']'] =
      c0 :: (d0 ++ t ++ [']']) := by rw [ht]; simp
  have hlen : (joinComma ((c0 :: d0) :: ds'')).length = (d0 ++ t).length + 1 := by
    rw [ht]; simp
  have hjlen := joinComma_length_ge ((c0 :: d0) :: ds'')
    (fun x hx => ((hds x hx).1))
  have hrun : json_read_array ('[' :: (joinComma ((c0 :: d0) :: ds'') ++ [']']))
      (c4arr S CA mlNat) m0 =
      failRes JSON_ERR_SUBTOOLONG
        (intWrites S 0 (((c0 :: d0) :: ds'').take mlNat) m0) := by
    rw [hshape, readArray_start (c4arr S CA mlNat) c0 (d0 ++ t ++ [']']) m0
        (isdigit_isspace_false c0 hc0) (isdigit_ne c0 hc0 ']' (by decide)),
      show (c4arr S CA mlNat).sstore = 0 from rfl,
      show c0 :: (d0 ++ t ++ [']']) = joinComma ((c0 :: d0) :: ds'') ++ [']'] from
        hshape.symm]
    have := arrayElems_int_run S CA mlNat ((c0 :: d0) :: ds'') 0 0 0
      (8 * (d0 ++ t ++ [']']).length + 31) m0 (by simp) hds (by simpa using hgt)
      (by omega)
      (by
        simp only [List.length_append, List.length_cons, List.length_nil]
          at hlen hjlen hgt ⊢
        omega)
    simpa using this
  refine ⟨by rw [hrun]; rfl, by rw [hrun]; rfl, ?_, ?_⟩
  · intro i hi
    rw [hrun]
    show Mem.read (intWrites S 0 (((c0 :: d0) :: ds'').take mlNat) m0) (S + 4 * i) = _
    rw [intWrites_read_hit S _ 0 m0 i (Nat.zero_le i)
        (by
          simp only [Nat.zero_add, List.length_take, List.length_cons] at hgt ⊢
          omega)]
    rw [Nat.sub_zero, take_getD _ mlNat i hi]
  · rw [hrun]
    show Mem.read (intWrites S 0 (((c0 :: d0) :: ds'').take mlNat) m0) CA = _
    rw [intWrites_read_miss S _ 0 m0 CA
        (fun j h1 h2 => by
          refine Ne.symm (hdisj j ?_)
          simp only [Nat.zero_add, List.length_take, List.length_cons] at h2
          omega)]

/-- Witness for C4: the schema of E4 (maxlen 3, bank at byte 0, count at
byte 100) on input `[1,2,3,4]`: too-many-elements, 1, 2, 3 stored at
slots 0, 1, 2, count untouched. -/
theorem claim_C4_witness :
    (json_read_array ('[' :: (joinComma [['1'], ['2'], ['3'], ['4']] ++ [']']))
        (c4arr 0 100 3) []).status = JSON_ERR_SUBTOOLONG ∧
    Mem.read (json_read_array ('[' :: (joinComma [['1'], ['2'], ['3'], ['4']] ++ [']']))
        (c4arr 0 100 3) []).mem (0 + 4 * 1) = CVal.vint 2 ∧
    Mem.read (json_read_array ('[' :: (joinComma [['1'], ['2'], ['3'], ['4']] ++ [']']))
        (c4arr 0 100 3) []).mem 100 = Mem.read [] 100 := by
  have h := claim_C4 [['1'], ['2'], ['3'], ['4']] 0 100 3 [] (by decide)
    (by decide) (by decide)
  exact ⟨h.1, by simpa using h.2.2.1 1 (by decide), h.2.2.2⟩

/-! ### Claim C1: default priming and the bad-attr status -/

/-- The destinations the priming prologue writes for a parse with no
parent context. -/
def primeTargets (attrs : List JsonAttrT) (off : Nat) : List Nat :=
  attrs.filterMap (fun e =>
    if e.nodefault then none else json_target_address e none off)

/-- The declared default of an entry, as the stored value the prologue
writes (string destinations are set to empty). -/
def defaultCVal (e : JsonAttrT) : CVal :=
  match e.type with
  | .t_integer => .vint e.dfltInteger
  | .t_uinteger => .vuint e.dfltUinteger
  | .t_time => .vreal e.dfltReal
  | .t_real => .vreal e.dfltReal
  | .t_string => .vstr []
  | .t_boolean => .vbool e.dfltBool
  | .t_character => .vchar e.dfltCharacter
  | _ => .undef

theorem primeWrite_none (e : JsonAttrT) (off : Nat) (m : Mem) (a : Nat)
    (ha : json_target_address e none off = some a) :
    primeWrite e none off m = .ok (m.write a (defaultCVal e)) := by
  unfold primeWrite defaultCVal
  rw [ha]
  unfold json_target_address ordinaryTarget at ha
  cases htype : e.type <;> rw [htype] at ha <;> simp_all [noParStr]

theorem primeWrite_skip (e : JsonAttrT) (off : Nat) (m : Mem)
    (ha : json_target_address e none off = none) :
    primeWrite e none off m = .ok m := by
  unfold primeWrite
  rw [ha]

/-- Priming with no parent context never fails, leaves addresses outside
its target set untouched, and — when the target addresses are pairwise
distinct — leaves every non-suppressed destination holding its declared
default. -/
theorem jsonPrime_none (attrs : List JsonAttrT) (off : Nat) (m : Mem) :
    ∃ m', jsonPrime attrs none off m = .ok m' ∧
      (∀ b, b ∉ primeTargets attrs off → Mem.read m' b = Mem.read m b) ∧
      ((primeTargets attrs off).Nodup →
        ∀ e ∈ attrs, e.nodefault = false →
        ∀ a, json_target_address e none off = some a →
        Mem.read m' a = defaultCVal e) := by
  induction attrs generalizing m with
  | nil =>
    refine ⟨m, rfl, fun b _ => rfl, fun _ e he => absurd he (List.not_mem_nil e)⟩
  | cons cur rest ih =>
    by_cases hnd : cur.nodefault
    · obtain ⟨m', h1, h2, h3⟩ := ih m
      refine ⟨m', by simpa [jsonPrime, hnd] using h1, ?_, ?_⟩
      · intro b hb
        exact h2 b (by simpa [primeTargets, hnd] using hb)
      · intro hnodup e he hed a ha
        rcases List.mem_cons.mp he with rfl | he'
        · rw [hnd] at hed; exact Bool.noConfusion hed
        · exact h3 (by simpa [primeTargets, hnd] using hnodup) e he' hed a ha
    · have hndf : cur.nodefault = false := Bool.not_eq_true _ ▸ (by simpa using hnd)
      cases ha : json_target_address cur none off with
      | none =>
        obtain ⟨m', h1, h2, h3⟩ := ih m
        refine ⟨m', ?_, ?_, ?_⟩
        · simpa [jsonPrime, hndf, primeWrite_skip cur off m ha] using h1
        · intro b hb
          exact h2 b (by simpa [primeTargets, hndf, ha] using hb)
        · intro hnodup e he hed a ha'
          rcases List.mem_cons.mp he with rfl | he'
          · rw [ha] at ha'; exact Option.noConfusion ha'
          · exact h3 (by simpa [primeTargets, hndf, ha] using hnodup) e he' hed a ha'
      | some a0 =>
        obtain ⟨m', h1, h2, h3⟩ := ih (m.write a0 (defaultCVal cur))
        have hpt : primeTargets (cur :: rest) off = a0 :: primeTargets rest off := by
          simp [primeTargets, hndf, ha]
        refine ⟨m', ?_, ?_, ?_⟩
        · simpa [jsonPrime, hndf, primeWrite_none cur off m a0 ha] using h1
        · intro b hb
          rw [hpt] at hb
          simp only [List.mem_cons, not_or] at hb
          rw [h2 b hb.2, read_write_miss _ _ _ _ hb.1]
        · intro hnodup e he hed a ha'
          rw [hpt] at hnodup
          rcases List.mem_cons.mp he with rfl | he'
          · rw [ha] at ha'
            injection ha' with ha''
            subst ha''
            rw [h2 a0 ((List.nodup_cons.mp hnodup).1), read_write_hit]
          · exact h3 (List.nodup_cons.mp hnodup).2 e he' hed a ha'

theorem findIdx?_attr_none (attrs : List JsonAttrT) (name : List Char)
    (h : ∀ e ∈ attrs, e.attrName ≠ name) :
    List.findIdx? (fun e => e.attrName == name) attrs = none := by
  induction attrs with
  | nil => rfl
  | cons cur rest ih =>
    have h1 : (cur.attrName == name) = false :=
      beq_eq_false_iff_ne.mpr (h cur (List.mem_cons_self ..))
    simp [List.findIdx?, h1, ih (fun e he => h e (List.mem_cons_of_mem _ he))]

/-- Scanning an attribute name of at most 30 bytes (together with what is
already in the name buffer) never trips the length check: the machine
consumes the name and its closing quote and proceeds to the schema
lookup. -/
theorem objRun_inAttr_scan (name : List Char) :
    ∀ (f : Nat) (attrs : List JsonAttrT) (parent : Option JsonArrayT)
      (offset : Nat) (regs : Regs) (rest : List Char),
      (∀ c ∈ name, c ≠ '"') → regs.attrBuf.length + name.length ≤ 30 →
      objRun (name.length + (f + 1)) attrs parent offset .sInAttr regs
          (name ++ '"' :: rest) =
        (match List.findIdx? (fun e => e.attrName == (regs.attrBuf ++ name)) attrs with
         | none => failRes JSON_ERR_BADATTR regs.mem
         | some idx =>
             objRun f attrs parent offset .sAwaitValue
               { regs with cursorIdx := idx,
                           maxlen := maxlenFor ((attrs.get? idx).getD nullAttr)
                             regs.maxlen,
                           attrBuf := regs.attrBuf ++ name,
                           valBuf := [] } rest) := by
  induction name with
  | nil =>
    intro f attrs parent offset regs rest _ _
    simp [objRun]
  | cons c name' ih =>
    intro f attrs parent offset regs rest hq hlen
    have hc : c ≠ '"' := hq c (List.mem_cons_self ..)
    have hlt : ¬(regs.attrBuf.length ≥ JSON_ATTR_MAX - 1) := by
      simp only [List.length_cons] at hlen
      simp only [JSON_ATTR_MAX]
      omega
    rw [show (c :: name').length + (f + 1) = (name'.length + (f + 1)) + 1 by
      simp; omega]
    rw [show (c :: name') ++ '"' :: rest = c :: (name' ++ '"' :: rest) by simp]
    rw [objRun]
    simp only [hc, if_false, hlt, if_false, ite_false]
    have := ih f attrs parent offset { regs with attrBuf := regs.attrBuf ++ [c] } rest
      (fun x hx => hq x (List.mem_cons_of_mem _ hx))
      (by simp only [List.length_append, List.length_cons, List.length_nil] at hlen ⊢
          omega)
    simp only at this
    rw [this]
    simp [List.append_assoc]

/-- C1 as amended: for every object schema (with pairwise distinct
priming destinations) and every input object whose first attribute name
(of at most 30 bytes) matches no schema entry, json_read_object returns
bad-attr, and at that point every destination whose entry has the
default-suppression flag clear holds its declared default (string
destinations empty): priming ran before any input byte was scanned and
nothing was committed before the unknown name was seen. -/
theorem claim_C1 (attrs : List JsonAttrT) (name rest : List Char) (u0 : Nat) (m0 : Mem)
    (hlen : name.length ≤ 30)
    (hq : ∀ c ∈ name, c ≠ '"')
    (hunk : ∀ e ∈ attrs, e.attrName ≠ name)
    (hnd : (primeTargets attrs 0).Nodup) :
    (json_read_object ('{' :: '"' :: (name ++ '"' :: rest)) attrs u0 m0).status =
      JSON_ERR_BADATTR ∧
    (∀ e ∈ attrs, e.nodefault = false → ∀ a, json_target_address e none 0 = some a →
      Mem.read (json_read_object ('{' :: '"' :: (name ++ '"' :: rest)) attrs u0 m0).mem
        a = defaultCVal e) := by
  obtain ⟨m', hp, hout, hdef⟩ := jsonPrime_none attrs 0 m0
  have hrun : json_read_object ('{' :: '"' :: (name ++ '"' :: rest)) attrs u0 m0 =
      failRes JSON_ERR_BADATTR m' := by
    unfold json_read_object
    rw [show 8 * (('{' :: '"' :: (name ++ '"' :: rest)).length) + 16 =
        (((name.length + ((7 * name.length + 8 * rest.length + 36) + 1)) + 1) + 1) + 1 by
      simp only [List.length_cons, List.length_append]
      omega]
    rw [jsonInternalReadObject]
    simp only [hp]
    rw [show ('{' : Char) :: '"' :: (name ++ '"' :: rest) =
        '{' :: ('"' :: (name ++ '"' :: rest)) from rfl]
    rw [objRun.eq_def]
    simp +decide
    rw [objRun.eq_def]
    simp +decide
    rw [objRun_inAttr_scan name (7 * name.length + 8 * rest.length + 36) attrs none 0
      _ rest hq (by simpa using hlen)]
    simp only [List.nil_append]
    rw [findIdx?_attr_none attrs name hunk]
  rw [hrun]
  exact ⟨rfl, fun e he hed a ha => hdef hnd e he hed a ha⟩

def c1cnt : JsonAttrT := scalarEntry ['c', 'o', 'u', 'n', 't'] .t_integer 100
def c1flag1 : JsonAttrT := scalarEntry ['f', 'l', 'a', 'g', '1'] .t_boolean 200
def c1flag2 : JsonAttrT := scalarEntry ['f', 'l', 'a', 'g', '2'] .t_boolean 300
def c1attrs : List JsonAttrT := [c1cnt, c1flag1, c1flag2]

def c1cxInput : List Char :=
  ['{', '"', 'c', 'o', 'u', 'n', 't', '"', ':', '4', '2', ',',
   '"', 'w', 'h', 'o', 'z', 'i', 's', '"', ':', '1', '}']

/-- C1 (counterexample to the claim as stated): the input object commits
the known attribute count=42 before the unknown name whozis is seen; the
call does return bad-attr, but the count destination then holds 42, not
its declared default 0 — so it is not true that at the bad-attr return
every non-suppressed destination still holds its default. -/
theorem claim_C1_counterexample :
    (json_read_object c1cxInput c1attrs 0 []).status = JSON_ERR_BADATTR ∧
    Mem.read (json_read_object c1cxInput c1attrs 0 []).mem 100 = CVal.vint 42 ∧
    defaultCVal c1cnt = CVal.vint 0 ∧
    Mem.read (json_read_object c1cxInput c1attrs 0 []).mem 100 ≠ defaultCVal c1cnt := by
  decide

def c1wRest : List Char :=
  [':', 't', 'r', 'u', 'e', ',', '"', 'f', 'l', 'a', 'g', '2', '"', ':',
   'f', 'a', 'l', 's', 'e', ',', '"', 'c', 'o', 'u', 'n', 't', '"', ':', '2', '3', '}']

/-- Witness for C1 at the E2 scenario: unknown first attribute whozis;
status is bad-attr and count, flag1, flag2 all hold their defaults. -/
theorem claim_C1_witness :
    (json_read_object ('{' :: '"' :: (['w', 'h', 'o', 'z', 'i', 's'] ++ '"' :: c1wRest))
        c1attrs 0 []).status = JSON_ERR_BADATTR ∧
    Mem.read (json_read_object
        ('{' :: '"' :: (['w', 'h', 'o', 'z', 'i', 's'] ++ '"' :: c1wRest))
        c1attrs 0 []).mem 100 = CVal.vint 0 ∧
    Mem.read (json_read_object
        ('{' :: '"' :: (['w', 'h', 'o', 'z', 'i', 's'] ++ '"' :: c1wRest))
        c1attrs 0 []).mem 200 = CVal.vbool false ∧
    Mem.read (json_read_object
        ('{' :: '"' :: (['w', 'h', 'o', 'z', 'i', 's'] ++ '"' :: c1wRest))
        c1attrs 0 []).mem 300 = CVal.vbool false := by
  have h := claim_C1 c1attrs ['w', 'h', 'o', 'z', 'i', 's'] c1wRest 0 []
    (by decide) (by decide)
    (by
      intro e he
      simp only [c1attrs, List.mem_cons, List.not_mem_nil, or_false] at he
      rcases he with rfl | rfl | rfl <;> decide)
    (by decide)
  refine ⟨h.1, ?_, ?_, ?_⟩
  · have := h.2 c1cnt (by simp [c1attrs]) (by decide) 100 (by decide)
    simpa [defaultCVal, c1cnt, scalarEntry, JsonAttrT.type, JsonAttrT.dfltInteger]
      using this
  · have := h.2 c1flag1 (by simp [c1attrs]) (by decide) 200 (by decide)
    simpa [defaultCVal, c1flag1, scalarEntry, JsonAttrT.type, JsonAttrT.dfltBool]
      using this
  · have := h.2 c1flag2 (by simp [c1attrs]) (by decide) 300 (by decide)
    simpa [defaultCVal, c1flag2, scalarEntry, JsonAttrT.type, JsonAttrT.dfltBool]
      using this

/-! ### Claim C7: boolean-kind attributes accept any unquoted lexeme -/

theorem cstr_no_nul (l : List Char) (h : ∀ c ∈ l, c ≠ nulChar) : cstr l = l := by
  induction l with
  | nil => rfl
  | cons c rest ih =>
    simp only [cstr, List.takeWhile_cons]
    rw [if_pos (by simpa using h c (List.mem_cons_self ..))]
    exact congrArg (c :: ·) (ih (fun x hx => h x (List.mem_cons_of_mem _ hx)))

/-- With a single-entry schema the reconciliation loop never moves: either
the entry fits, or there is no adjacent entry to move to. -/
theorem reconcileFrom_single (e : JsonAttrT) (name valbuf : List Char) (q : Bool) :
    reconcileFrom [e] 0 name valbuf q = 0 := by
  simp [reconcileFrom, reconcileAux]

/-- Scanning an unquoted value token of total length at most 512 never
trips the token-length check: the machine consumes the token up to its
delimiting right brace and pushes the brace back into post_val with the
token accumulated in the value buffer. -/
theorem objRun_token_scan (tok : List Char) :
    ∀ (f : Nat) (attrs : List JsonAttrT) (parent : Option JsonArrayT)
      (offset : Nat) (regs : Regs) (rest : List Char),
      (∀ c ∈ tok, isspace c = false ∧ c ≠ ',' ∧ c ≠ '}') →
      regs.valBuf.length + tok.length ≤ 512 →
      objRun (tok.length + (f + 1)) attrs parent offset .sInValToken regs
          (tok ++ '}' :: rest) =
        objRun f attrs parent offset .sPostVal
          { regs with valBuf := regs.valBuf ++ tok } ('}' :: rest) := by
  induction tok with
  | nil =>
    intro f attrs parent offset regs rest _ _
    rw [show ([] : List Char).length + (f + 1) = f + 1 from by simp]
    rw [objRun.eq_def]
    simp +decide
  | cons c tok' ih =>
    intro f attrs parent offset regs rest htok hlen
    obtain ⟨hs, hcm, hbr⟩ := htok c (List.mem_cons_self ..)
    rw [show (c :: tok').length + (f + 1) = (tok'.length + (f + 1)) + 1 by
      simp; omega]
    rw [show (c :: tok') ++ '}' :: rest = c :: (tok' ++ '}' :: rest) from rfl]
    have hlt : ¬(regs.valBuf.length > JSON_VAL_MAX - 1) := by
      simp only [JSON_VAL_MAX, List.length_cons] at hlen ⊢
      omega
    rw [objRun.eq_def]
    simp only [hs, hcm, hbr, hlt, if_false, or_false, false_or, ite_false,
      Bool.false_eq_true]
    have := ih f attrs parent offset { regs with valBuf := regs.valBuf ++ [c] } rest
      (fun x hx => htok x (List.mem_cons_of_mem _ hx))
      (by simp only [List.length_append, List.length_cons, List.length_nil] at hlen ⊢
          omega)
    simp only at this
    rw [this]
    simp [List.append_assoc]

/-! ### Single-step unfolding lemmas for symbolic runs -/

theorem jsonInternal_step (f : Nat) (h : 1 ≤ f) (attrs : List JsonAttrT)
    (parent : Option JsonArrayT) (offset u0 : Nat) (m : Mem) (cp : List Char) :
    jsonInternalReadObject f attrs parent offset u0 m cp =
      (match jsonPrime attrs parent offset m with
       | .error (st, m') => ⟨st, none, m'⟩
       | .ok m' =>
           objRun (f - 1) attrs parent offset .sInit ⟨0, 0, [], [], false, u0, m'⟩ cp) := by
  obtain ⟨k, rfl⟩ : ∃ k, f = k + 1 := ⟨f - 1, by omega⟩
  rfl

theorem objRun_init_brace (f : Nat) (h : 1 ≤ f) (attrs : List JsonAttrT)
    (parent : Option JsonArrayT) (offset : Nat) (regs : Regs) (tail : List Char) :
    objRun f attrs parent offset .sInit regs ('{' :: tail) =
      objRun (f - 1) attrs parent offset .sAwaitAttr regs tail := by
  obtain ⟨k, rfl⟩ : ∃ k, f = k + 1 := ⟨f - 1, by omega⟩
  rw [objRun.eq_def]
  simp +decide

theorem objRun_await_quote (f : Nat) (h : 1 ≤ f) (attrs : List JsonAttrT)
    (parent : Option JsonArrayT) (offset : Nat) (regs : Regs) (tail : List Char) :
    objRun f attrs parent offset .sAwaitAttr regs ('"' :: tail) =
      objRun (f - 1) attrs parent offset .sInAttr { regs with attrBuf := [] } tail := by
  obtain ⟨k, rfl⟩ : ∃ k, f = k + 1 := ⟨f - 1, by omega⟩
  rw [objRun.eq_def]
  simp +decide

theorem objRun_awaitval_colon (f : Nat) (h : 1 ≤ f) (attrs : List JsonAttrT)
    (parent : Option JsonArrayT) (offset : Nat) (regs : Regs) (tail : List Char) :
    objRun f attrs parent offset .sAwaitValue regs (':' :: tail) =
      objRun (f - 1) attrs parent offset .sAwaitValue regs tail := by
  obtain ⟨k, rfl⟩ : ∃ k, f = k + 1 := ⟨f - 1, by omega⟩
  rw [objRun.eq_def]
  simp +decide

theorem objRun_awaitval_token (f : Nat) (h : 1 ≤ f) (attrs : List JsonAttrT)
    (parent : Option JsonArrayT) (offset : Nat) (regs : Regs) (c : Char)
    (tail : List Char) (hs : isspace c = false) (hcol : c ≠ ':') (hbrk : c ≠ '[')
    (hq : c ≠ '"')
    (harr : ((attrs.get? regs.cursorIdx).getD nullAttr).type ≠ .t_array) :
    objRun f attrs parent offset .sAwaitValue regs (c :: tail) =
      objRun (f - 1) attrs parent offset .sInValToken
        { regs with value_quoted := false, valBuf := [c] } tail := by
  obtain ⟨k, rfl⟩ : ∃ k, f = k + 1 := ⟨f - 1, by omega⟩
  simp only [List.get?_eq_getElem?] at harr
  rw [objRun.eq_def]
  simp [hs, hcol, hbrk, hq, harr]

/-- Fuel-subtraction wrapper around `objRun_inAttr_scan`. -/
theorem objRun_inAttr_scanSub (name : List Char) (f : Nat)
    (hf : name.length + 1 ≤ f) (attrs : List JsonAttrT)
    (parent : Option JsonArrayT) (offset : Nat) (regs : Regs) (rest : List Char)
    (hq : ∀ c ∈ name, c ≠ '"') (hlen : regs.attrBuf.length + name.length ≤ 30) :
    objRun f attrs parent offset .sInAttr regs (name ++ '"' :: rest) =
      (match List.findIdx? (fun e => e.attrName == (regs.attrBuf ++ name)) attrs with
       | none => failRes JSON_ERR_BADATTR regs.mem
       | some idx =>
           objRun (f - (name.length + 1)) attrs parent offset .sAwaitValue
             { regs with cursorIdx := idx,
                         maxlen := maxlenFor ((attrs.get? idx).getD nullAttr)
                           regs.maxlen,
                         attrBuf := regs.attrBuf ++ name,
                         valBuf := [] } rest) := by
  conv_lhs => rw [show f = name.length + ((f - (name.length + 1)) + 1) by omega]
  rw [objRun_inAttr_scan name _ attrs parent offset regs rest hq hlen]

/-- Fuel-subtraction wrapper around `objRun_token_scan`. -/
theorem objRun_token_scanSub (tok : List Char) (f : Nat)
    (hf : tok.length + 1 ≤ f) (attrs : List JsonAttrT)
    (parent : Option JsonArrayT) (offset : Nat) (regs : Regs) (rest : List Char)
    (htok : ∀ c ∈ tok, isspace c = false ∧ c ≠ ',' ∧ c ≠ '}')
    (hlen : regs.valBuf.length + tok.length ≤ 512) :
    objRun f attrs parent offset .sInValToken regs (tok ++ '}' :: rest) =
      objRun (f - (tok.length + 1)) attrs parent offset .sPostVal
        { regs with valBuf := regs.valBuf ++ tok } ('}' :: rest) := by
  conv_lhs => rw [show f = tok.length + ((f - (tok.length + 1)) + 1) by omega]
  rw [objRun_token_scan tok _ attrs parent offset regs rest htok hlen]

/-! ### Claim C7: boolean attributes and unquoted lexemes -/

/-- A boolean schema entry at address 500 whose default is `true`, so that
a committed `false` is distinguishable from the primed default. -/
def c7flag : JsonAttrT :=
  .mk ['f', 'l', 'a', 'g'] .t_boolean 500 nullArray 0 0 0 true nulChar [] 0 [] false

/-- Post-value processing of an unquoted NUL-free lexeme under the
single-entry boolean schema: the parse closes successfully and stores
whether the lexeme equals `true`. -/
theorem objRun_postval_commit (f : Nat) (h : 1 ≤ f) (tok rest : List Char) (u0 : Nat)
    (m1 : Mem) (hnul : ∀ c ∈ tok, c ≠ nulChar) :
    objRun f [c7flag] none 0 .sPostVal ⟨0, 0, ['f', 'l', 'a', 'g'], tok, false, u0, m1⟩
        ('}' :: rest) =
      goodParse rest (m1.write 500 (.vbool (tok == trueChars))) := by
  obtain ⟨k, rfl⟩ : ∃ k, f = k + 1 := ⟨f - 1, by omega⟩
  have hc : cstr tok = tok := cstr_no_nul tok hnul
  have hpv : postValWork [c7flag] none 0
        ⟨0, 0, ['f', 'l', 'a', 'g'], tok, false, u0, m1⟩ =
      .ok ⟨0, 0, ['f', 'l', 'a', 'g'], tok, false, u0,
        m1.write 500 (.vbool (tok == trueChars))⟩ := by
    simp +decide [postValWork, reconcileFrom_single, valueCommit, json_target_address,
      ordinaryTarget, c7flag, hc, JsonAttrT.type, JsonAttrT.map, JsonAttrT.addr,
      JsonAttrT.len, JsonAttrT.dfltCheck]
  rw [objRun.eq_def]
  simp only [hpv]
  simp +decide

/-- C7 (amended): an unquoted value lexeme under a boolean-kind attribute
is never rejected for its spelling; the commit stores
`strcmp(valbuf, "true") == 0`, i.e. `true` exactly when the lexeme is
`true` and `false` for every other lexeme, including ones that are not
boolean at all.  (The claim as stated — that the parse does not succeed
for lexemes other than `true`/`false` — is refuted by the
counterexample.) -/
theorem claim_C7 (tok rest : List Char) (u0 : Nat) (m0 : Mem)
    (hne : tok ≠ [])
    (htok : ∀ c ∈ tok, isspace c = false ∧ c ≠ ',' ∧ c ≠ '}' ∧ c ≠ '"' ∧
      c ≠ '[' ∧ c ≠ ':' ∧ c ≠ nulChar)
    (hlen : tok.length ≤ 512) :
    (json_read_object
        ('{' :: '"' :: (['f', 'l', 'a', 'g'] ++ '"' :: ':' :: (tok ++ '}' :: rest)))
        [c7flag] u0 m0).status = 0 ∧
    Mem.read (json_read_object
        ('{' :: '"' :: (['f', 'l', 'a', 'g'] ++ '"' :: ':' :: (tok ++ '}' :: rest)))
        [c7flag] u0 m0).mem 500 = CVal.vbool (tok == trueChars) := by
  obtain ⟨c1, tok', rfl⟩ : ∃ c t, tok = c :: t := by
    cases tok with
    | nil => exact absurd rfl hne
    | cons c t => exact ⟨c, t, rfl⟩
  have hc1 := htok c1 (List.mem_cons_self ..)
  have hrun : json_read_object
      ('{' :: '"' :: (['f', 'l', 'a', 'g'] ++ '"' :: ':' :: ((c1 :: tok') ++ '}' :: rest)))
      [c7flag] u0 m0 =
      goodParse rest ((m0.write 500 (.vbool true)).write 500
        (.vbool ((c1 :: tok') == trueChars))) := by
    unfold json_read_object
    rw [jsonInternal_step _ (by
      simp only [List.length_cons, List.length_append, List.length_nil]; omega)]
    have hp : jsonPrime [c7flag] none 0 m0 = .ok (m0.write 500 (.vbool true)) := rfl
    simp only [hp]
    rw [objRun_init_brace _ (by
      simp only [List.length_cons, List.length_append, List.length_nil]; omega)]
    rw [objRun_await_quote _ (by
      simp only [List.length_cons, List.length_append, List.length_nil]; omega)]
    rw [objRun_inAttr_scanSub ['f', 'l', 'a', 'g'] _ (by
        simp only [List.length_cons, List.length_append, List.length_nil]; omega)
      _ _ _ _ _ (by decide) (by simp)]
    simp only [List.nil_append,
      show List.findIdx? (fun e => e.attrName == ['f', 'l', 'a', 'g']) [c7flag] =
        some 0 from by decide]
    rw [objRun_awaitval_colon _ (by
      simp only [List.length_cons, List.length_append, List.length_nil]; omega)]
    rw [show (c1 :: tok') ++ '}' :: rest = c1 :: (tok' ++ '}' :: rest) from rfl]
    rw [objRun_awaitval_token _ (by
        simp only [List.length_cons, List.length_append, List.length_nil]; omega)
      _ _ _ _ _ _ hc1.1 hc1.2.2.2.2.2.1 hc1.2.2.2.2.1 hc1.2.2.2.1
      (by simp +decide [c7flag, JsonAttrT.type])]
    rw [objRun_token_scanSub tok' _ (by
        simp only [List.length_cons, List.length_append, List.length_nil]; omega)
      _ _ _ _ _
      (fun c hc => ⟨(htok c (List.mem_cons_of_mem _ hc)).1,
        (htok c (List.mem_cons_of_mem _ hc)).2.1,
        (htok c (List.mem_cons_of_mem _ hc)).2.2.1⟩)
      (by simp only [List.length_cons] at hlen
          simp <;> omega)]
    exact objRun_postval_commit _ (by
        simp only [List.length_cons, List.length_append, List.length_nil]; omega)
      (c1 :: tok') rest u0 (m0.write 500 (.vbool true))
      (fun c hc => (htok c hc).2.2.2.2.2.2)
  rw [hrun]
  exact ⟨rfl, read_write_hit _ _ _⟩

def c7cxInput : List Char :=
  ['{', '"', 'f', 'l', 'a', 'g', '"', ':', '4', '2', '}']

/-- C7 (counterexample to the claim as stated): the unquoted lexeme 42 is
neither `true` nor `false`, yet the parse succeeds (status 0) and writes
the boolean `false` computed from it — distinguishable from priming since
the declared default is `true`. -/
theorem claim_C7_counterexample :
    (json_read_object c7cxInput [c7flag] 0 []).status = 0 ∧
    Mem.read (json_read_object c7cxInput [c7flag] 0 []).mem 500 = CVal.vbool false ∧
    c7flag.dfltBool = true := by
  decide

/-- Witness for C7: the lexeme 42 stores `false`, the lexeme `true` stores
`true`. -/
theorem claim_C7_witness :
    (json_read_object
        ('{' :: '"' :: (['f', 'l', 'a', 'g'] ++ '"' :: ':' :: (['4', '2'] ++ '}' :: [])))
        [c7flag] 0 []).status = 0 ∧
    Mem.read (json_read_object
        ('{' :: '"' :: (['f', 'l', 'a', 'g'] ++ '"' :: ':' :: (['4', '2'] ++ '}' :: [])))
        [c7flag] 0 []).mem 500 = CVal.vbool false ∧
    Mem.read (json_read_object
        ('{' :: '"' :: (['f', 'l', 'a', 'g'] ++ '"' :: ':' ::
          (['t', 'r', 'u', 'e'] ++ '}' :: [])))
        [c7flag] 0 []).mem 500 = CVal.vbool true := by
  have h1 := claim_C7 ['4', '2'] [] 0 [] (by decide) (by decide) (by decide)
  have h2 := claim_C7 ['t', 'r', 'u', 'e'] [] 0 [] (by decide) (by decide) (by decide)
  exact ⟨h1.1, by simpa using h1.2, by simpa using h2.2⟩

/-! ### Claim C10: the end cursor on failure -/

/-- The end-cursor contract: either the call succeeded, or the end cursor
has been nulled (it is never left pointing into the input on failure). -/
def endpNull (r : PResult) : Prop := r.status = 0 ∨ r.endp = none

/-- The contract holds for every fuel level and every entry point of the
mutual recursion: each failure site returns `failRes` (endp nulled) or
explicitly copies `⟨r.status, none, r.mem⟩`, and each success site is
`goodParse` or `arrBreakout` (status 0). -/
theorem endp_invariant : ∀ fuel : Nat,
    (∀ attrs parent offset st regs cp,
      endpNull (objRun fuel attrs parent offset st regs cp)) ∧
    (∀ attrs parent offset u0 m cp,
      endpNull (jsonInternalReadObject fuel attrs parent offset u0 m cp)) ∧
    (∀ arr m cp, endpNull (arrayRun fuel arr m cp)) ∧
    (∀ arr tp offset arrcount m cp,
      endpNull (arrayElems fuel arr tp offset arrcount m cp)) := by
  intro fuel
  induction fuel with
  | zero =>
    refine ⟨?_, ?_, ?_, ?_⟩ <;> intros <;> exact Or.inr rfl
  | succ k ih =>
    obtain ⟨ihO, ihJ, ihR, ihE⟩ := ih
    refine ⟨?_, ?_, ?_, ?_⟩
    · intro attrs parent offset st regs cp
      cases cp with
      | nil => exact Or.inl rfl
      | cons c rest =>
        rw [objRun.eq_def]
        cases st
        all_goals
          dsimp only
          repeat' first | split | (dsimp only)
          all_goals first
            | exact Or.inl rfl
            | exact Or.inr rfl
            | apply ihO
            | apply ihJ
            | apply ihR
            | apply ihE
    · intro attrs parent offset u0 m cp
      rw [jsonInternalReadObject.eq_def]
      dsimp only
      repeat' first | split | (dsimp only)
      all_goals first
        | exact Or.inl rfl
        | exact Or.inr rfl
        | apply ihO
        | apply ihJ
        | apply ihR
        | apply ihE
    · intro arr m cp
      cases cp with
      | nil => exact Or.inr rfl
      | cons c rest =>
        rw [arrayRun.eq_def]
        dsimp only
        repeat' first | split | (dsimp only)
        all_goals first
          | exact Or.inl rfl
          | exact Or.inr rfl
          | apply ihO
          | apply ihJ
          | apply ihR
          | apply ihE
    · intro arr tp offset arrcount m cp
      rw [arrayElems.eq_def]
      dsimp only
      repeat' first | split | (dsimp only)
      all_goals first
        | exact Or.inl rfl
        | exact Or.inr rfl
        | apply ihO
        | apply ihJ
        | apply ihR
        | apply ihE
        | (rename_i r heq
           repeat' split at heq
           all_goals
             first
               | (injection heq with h
                  subst h
                  exact Or.inr rfl)
               | exact Except.noConfusion heq)

/-- C10: for both public entry points, on any input, schema and prior
memory, either the returned status is 0 (success) or the end cursor is
NULL; a failing call never leaves the end cursor pointing into the
input. -/
theorem claim_C10 :
    ∀ (cp : List Char) (attrs : List JsonAttrT) (u0 : Nat) (m0 : Mem)
      (arr : JsonArrayT),
      ((json_read_object cp attrs u0 m0).status = 0 ∨
        (json_read_object cp attrs u0 m0).endp = none) ∧
      ((json_read_array cp arr m0).status = 0 ∨
        (json_read_array cp arr m0).endp = none) := by
  intro cp attrs u0 m0 arr
  exact ⟨(endp_invariant (8 * cp.length + 16)).2.1 attrs none 0 u0 m0 cp,
         (endp_invariant (8 * cp.length + 16)).2.2.1 arr m0 cp⟩

/-! ### Claim C2: same-name entry reconciliation -/

def c2str : JsonAttrT := stringEntry ['x'] 400 8

/-- An integer entry named x with a nonzero default, so that a commit
through it is distinguishable from priming. -/
def c2int : JsonAttrT :=
  .mk ['x'] .t_integer 500 nullArray 7 0 0 false nulChar [] 0 [] false

def c2attrs : List JsonAttrT := [c2str, c2int]

def c2cxInput : List Char := ['{', '"', 'x', '"', ':', 't', 'r', 'u', '}']

def c2e6attrs : List JsonAttrT :=
  [scalarEntry ['x'] .t_integer 400, scalarEntry ['x'] .t_real 500]

def c2e6in1 : List Char := ['{', '"', 'x', '"', ':', '3', '}']

def c2e6in2 : List Char := ['{', '"', 'x', '"', ':', '3', '.', '0', '}']

/-- C2 (counterexample to the final clause): under the schema
[x:string, x:integer] the unquoted lexeme tru fits neither entry, yet the
reconciliation loop ends at index 1 (the last entry of the same-name run),
not at the original cursor 0; observably, the parse succeeds with
atoi(tru) = 0 committed through the integer entry, where keeping the
original string cursor would have raised the unquoted-string error. -/
theorem claim_C2_counterexample :
    reconcileFrom c2attrs 0 ['x'] ['t', 'r', 'u'] false = 1 ∧
    compatibleEntry c2str ['t', 'r', 'u'] false = false ∧
    compatibleEntry c2int ['t', 'r', 'u'] false = false ∧
    (json_read_object c2cxInput c2attrs 0 []).status = 0 ∧
    Mem.read (json_read_object c2cxInput c2attrs 0 []).mem 500 = CVal.vint 0 := by
  decide

/-- C2 (amended): under the adjacent schema [x:int, x:real], {"x":3}
writes the integer destination (the real keeps its default) and {"x":3.0}
writes the real destination (the integer keeps its default); in general
the reconciliation loop stops at the current entry when its kind fits the
scanned value, advances to the adjacent entry when it does not fit and
that entry bears the same name, and stops when it does not fit and the
run of same-name entries ends — hence on total incompatibility the cursor
ends at the last entry of the run, not at the original entry. -/
theorem claim_C2 :
    ((json_read_object c2e6in1 c2e6attrs 0 []).status = 0 ∧
      Mem.read (json_read_object c2e6in1 c2e6attrs 0 []).mem 400 = CVal.vint 3 ∧
      Mem.read (json_read_object c2e6in1 c2e6attrs 0 []).mem 500 = CVal.vreal 0) ∧
    ((json_read_object c2e6in2 c2e6attrs 0 []).status = 0 ∧
      Mem.read (json_read_object c2e6in2 c2e6attrs 0 []).mem 500 = CVal.vreal 3 ∧
      Mem.read (json_read_object c2e6in2 c2e6attrs 0 []).mem 400 = CVal.vint 0) ∧
    (∀ (attrs : List JsonAttrT) (idx : Nat) (name valbuf : List Char) (q : Bool)
       (e : JsonAttrT), attrs.get? idx = some e →
      compatibleEntry e valbuf q = true →
      reconcileFrom attrs idx name valbuf q = idx) ∧
    (∀ (attrs : List JsonAttrT) (idx : Nat) (name valbuf : List Char) (q : Bool)
       (e e' : JsonAttrT), attrs.get? idx = some e →
      compatibleEntry e valbuf q = false →
      attrs.get? (idx + 1) = some e' → e'.attrName = name →
      reconcileFrom attrs idx name valbuf q =
        reconcileFrom attrs (idx + 1) name valbuf q) ∧
    (∀ (attrs : List JsonAttrT) (idx : Nat) (name valbuf : List Char) (q : Bool)
       (e : JsonAttrT), attrs.get? idx = some e →
      compatibleEntry e valbuf q = false →
      (∀ e', attrs.get? (idx + 1) = some e' → e'.attrName ≠ name) →
      reconcileFrom attrs idx name valbuf q = idx) := by
  refine ⟨by decide, by decide, ?_, ?_, ?_⟩
  · intro attrs idx name valbuf q e hget hcomp
    have hlt : idx < attrs.length := by
      by_contra hc
      rw [List.get?_eq_none.mpr (by omega)] at hget
      cases hget
    simp only [List.get?_eq_getElem?] at hget
    rw [reconcileFrom, show attrs.length - idx = (attrs.length - idx - 1) + 1 by omega]
    simp [reconcileAux, hget, hcomp]
  · intro attrs idx name valbuf q e e' hget hcomp hnxt hname
    have hlt : idx + 1 < attrs.length := by
      by_contra hc
      rw [List.get?_eq_none.mpr (by omega)] at hnxt
      cases hnxt
    simp only [List.get?_eq_getElem?] at hget hnxt
    rw [reconcileFrom, show attrs.length - idx = (attrs.length - (idx + 1)) + 1 by omega]
    simp [reconcileAux, hget, hcomp, hnxt, hname, reconcileFrom]
  · intro attrs idx name valbuf q e hget hcomp hrunend
    have hlt : idx < attrs.length := by
      by_contra hc
      rw [List.get?_eq_none.mpr (by omega)] at hget
      cases hget
    simp only [List.get?_eq_getElem?] at hget
    rw [reconcileFrom, show attrs.length - idx = (attrs.length - idx - 1) + 1 by omega]
    cases hnxt : attrs[idx + 1]? with
    | none => simp [reconcileAux, hget, hcomp, hnxt]
    | some e' =>
      have hne := hrunend e' (by simp only [List.get?_eq_getElem?]; exact hnxt)
      simp [reconcileAux, hget, hcomp, hnxt, hne]

/-- Witness for C2: the reconciliation equations applied at the
counterexample schema move the cursor from 0 to 1 for the lexeme tru, and
keep it at 0 for the digit lexeme 3 under the E6 schema. -/
theorem claim_C2_witness :
    reconcileFrom c2attrs 0 ['x'] ['t', 'r', 'u'] false = 1 ∧
    reconcileFrom c2e6attrs 0 ['x'] ['3'] false = 0 := by
  have h4 := claim_C2.2.2.2.1 c2attrs 0 ['x'] ['t', 'r', 'u'] false c2str c2int
    rfl (by decide) rfl (by decide)
  have h5 := claim_C2.2.2.2.2 c2attrs 1 ['x'] ['t', 'r', 'u'] false c2int
    rfl (by decide) (by intro e' h; simp [c2attrs] at h)
  have h3 := claim_C2.2.2.1 c2e6attrs 0 ['x'] ['3'] false
    (scalarEntry ['x'] .t_integer 400) rfl (by decide)
  exact ⟨h4.trans h5, h3⟩

/-! ### Claim C6: name and token length bounds -/

/-- Scanning an attribute name that would push the name buffer past 30
bytes: the length check fires (before the closing quote is ever seen) and
the parse dies with the attr-long error, leaving memory untouched. -/
theorem objRun_inAttr_overflow :
    ∀ (name : List Char) (f : Nat) (attrs : List JsonAttrT)
      (parent : Option JsonArrayT) (offset : Nat) (regs : Regs) (rest : List Char),
      (∀ c ∈ name, c ≠ '"') →
      31 ≤ regs.attrBuf.length + name.length →
      regs.attrBuf.length ≤ 30 →
      name.length ≤ f →
      objRun f attrs parent offset .sInAttr regs (name ++ rest) =
        failRes JSON_ERR_ATTRLEN regs.mem := by
  intro name
  induction name with
  | nil =>
    intro f attrs parent offset regs rest _ hover hcap _
    simp only [List.length_nil] at hover
    omega
  | cons c name' ih =>
    intro f attrs parent offset regs rest hq hover hcap hf
    obtain ⟨k, rfl⟩ : ∃ k, f = k + 1 := ⟨f - 1, by simp at hf; omega⟩
    have hcq : c ≠ '"' := hq c (List.mem_cons_self ..)
    rw [show (c :: name') ++ rest = c :: (name' ++ rest) from rfl]
    rw [objRun.eq_def]
    by_cases h30 : regs.attrBuf.length ≥ JSON_ATTR_MAX - 1
    · simp [hcq, h30]
    · simp only [hcq, h30, if_false, ite_false]
      have := ih k attrs parent offset { regs with attrBuf := regs.attrBuf ++ [c] } rest
        (fun x hx => hq x (List.mem_cons_of_mem _ hx))
        (by simp only [List.length_append, List.length_cons, List.length_nil]
            simp only [List.length_cons] at hover
            omega)
        (by simp only [List.length_append, List.length_cons, List.length_nil]
            simp only [JSON_ATTR_MAX] at h30
            omega)
        (by simp only [List.length_cons] at hf; omega)
      simpa using this

/-- Scanning an unquoted value token that would push the value buffer past
512 bytes: the token-length check fires and the parse dies with the
tok-long error, leaving memory untouched. -/
theorem objRun_token_overflow :
    ∀ (tok : List Char) (f : Nat) (attrs : List JsonAttrT)
      (parent : Option JsonArrayT) (offset : Nat) (regs : Regs) (rest : List Char),
      (∀ c ∈ tok, isspace c = false ∧ c ≠ ',' ∧ c ≠ '}') →
      513 ≤ regs.valBuf.length + tok.length →
      regs.valBuf.length ≤ 512 →
      tok.length ≤ f →
      objRun f attrs parent offset .sInValToken regs (tok ++ rest) =
        failRes JSON_ERR_TOKLONG regs.mem := by
  intro tok
  induction tok with
  | nil =>
    intro f attrs parent offset regs rest _ hover hcap _
    simp only [List.length_nil] at hover
    omega
  | cons c tok' ih =>
    intro f attrs parent offset regs rest htok hover hcap hf
    obtain ⟨k, rfl⟩ : ∃ k, f = k + 1 := ⟨f - 1, by simp at hf; omega⟩
    obtain ⟨hs, hcm, hbr⟩ := htok c (List.mem_cons_self ..)
    rw [show (c :: tok') ++ rest = c :: (tok' ++ rest) from rfl]
    rw [objRun.eq_def]
    by_cases h512 : regs.valBuf.length > JSON_VAL_MAX - 1
    · simp [hs, hcm, hbr, h512]
    · simp only [hs, hcm, hbr, h512, if_false, ite_false, or_self, false_or, or_false,
        Bool.false_eq_true]
      have := ih k attrs parent offset { regs with valBuf := regs.valBuf ++ [c] } rest
        (fun x hx => htok x (List.mem_cons_of_mem _ hx))
        (by simp only [List.length_append, List.length_cons, List.length_nil]
            simp only [List.length_cons] at hover
            omega)
        (by simp only [List.length_append, List.length_cons, List.length_nil]
            simp only [JSON_VAL_MAX] at h512
            omega)
        (by simp only [List.length_cons] at hf; omega)
      simpa using this

/-- Post-value processing of the lexeme 1 under a single integer entry
named `name`: the parse closes successfully and stores the integer 1. -/
theorem objRun_postval_int (f : Nat) (h : 1 ≤ f) (name rest : List Char) (u0 : Nat)
    (m1 : Mem) :
    objRun f [scalarEntry name .t_integer 100] none 0 .sPostVal
        ⟨0, 0, name, ['1'], false, u0, m1⟩ ('}' :: rest) =
      goodParse rest (m1.write 100 (.vint 1)) := by
  obtain ⟨k, rfl⟩ : ∃ k, f = k + 1 := ⟨f - 1, by omega⟩
  have hatoi : atoi ['1'] = 1 := by decide
  have hpv : postValWork [scalarEntry name .t_integer 100] none 0
        ⟨0, 0, name, ['1'], false, u0, m1⟩ =
      .ok ⟨0, 0, name, ['1'], false, u0, m1.write 100 (.vint 1)⟩ := by
    simp +decide [postValWork, reconcileFrom_single, valueCommit, json_target_address,
      ordinaryTarget, scalarEntry, hatoi, JsonAttrT.type, JsonAttrT.map, JsonAttrT.addr,
      JsonAttrT.len, JsonAttrT.dfltCheck]
  rw [objRun.eq_def]
  simp only [hpv]
  simp +decide

/-- The token delimiter pushback: a right brace ends the token and is
re-examined in post_val without being consumed. -/
theorem objRun_token_close (f : Nat) (h : 1 ≤ f) (attrs : List JsonAttrT)
    (parent : Option JsonArrayT) (offset : Nat) (regs : Regs) (rest : List Char) :
    objRun f attrs parent offset .sInValToken regs ('}' :: rest) =
      objRun (f - 1) attrs parent offset .sPostVal regs ('}' :: rest) := by
  obtain ⟨k, rfl⟩ : ∃ k, f = k + 1 := ⟨f - 1, by omega⟩
  rw [objRun.eq_def]
  simp +decide

/-- C6 (amended): an attribute name of 31 bytes or more always dies with
the attr-long error (the check fires once 30 bytes are buffered, so the
bound is 30, not 31); a name of at most 30 bytes is never rejected for
length (under its own single-entry schema, {"name":1} parses and stores
1); and an unquoted value token of 513 bytes or more dies with the
tok-long error.  (Quoted string values can exceed 512 source bytes
without any error when the excess consists of escape sequences, which
bypass the length check — see the counterexample.) -/
theorem claim_C6 :
    (∀ (attrs : List JsonAttrT) (name rest : List Char) (u0 : Nat) (m0 : Mem),
      (∀ c ∈ name, c ≠ '"') → 31 ≤ name.length →
      (json_read_object ('{' :: '"' :: (name ++ rest)) attrs u0 m0).status =
        JSON_ERR_ATTRLEN) ∧
    (∀ (name : List Char) (u0 : Nat) (m0 : Mem),
      (∀ c ∈ name, c ≠ '"') → name.length ≤ 30 →
      (json_read_object ('{' :: '"' :: (name ++ '"' :: ':' :: '1' :: '}' :: []))
          [scalarEntry name .t_integer 100] u0 m0).status = 0 ∧
      Mem.read (json_read_object
          ('{' :: '"' :: (name ++ '"' :: ':' :: '1' :: '}' :: []))
          [scalarEntry name .t_integer 100] u0 m0).mem 100 = CVal.vint 1) ∧
    (∀ (tok rest : List Char) (u0 : Nat) (m0 : Mem),
      (∀ c ∈ tok, isspace c = false ∧ c ≠ ',' ∧ c ≠ '}' ∧ c ≠ '"' ∧
        c ≠ '[' ∧ c ≠ ':') →
      513 ≤ tok.length →
      (json_read_object ('{' :: '"' :: 'v' :: '"' :: ':' :: (tok ++ rest))
          [scalarEntry ['v'] .t_integer 100] u0 m0).status = JSON_ERR_TOKLONG) := by
  refine ⟨?_, ?_, ?_⟩
  · intro attrs name rest u0 m0 hq hlen
    obtain ⟨m', hp, hout, hdef⟩ := jsonPrime_none attrs 0 m0
    unfold json_read_object
    rw [jsonInternal_step _ (by
      simp only [List.length_cons, List.length_append]; omega)]
    simp only [hp]
    rw [objRun_init_brace _ (by
      simp only [List.length_cons, List.length_append]; omega)]
    rw [objRun_await_quote _ (by
      simp only [List.length_cons, List.length_append]; omega)]
    rw [objRun_inAttr_overflow name _ attrs none 0 _ rest hq
      (by simp; omega) (by simp)
      (by simp only [List.length_cons, List.length_append]; omega)]
    rfl
  · intro name u0 m0 hq hlen30
    have hfind : List.findIdx? (fun e => e.attrName == name)
        [scalarEntry name .t_integer 100] = some 0 := by
      simp [List.findIdx?_cons, scalarEntry, JsonAttrT.attrName]
    have hrun : json_read_object ('{' :: '"' :: (name ++ '"' :: ':' :: '1' :: '}' :: []))
        [scalarEntry name .t_integer 100] u0 m0 =
        goodParse [] ((m0.write 100 (.vint 0)).write 100 (.vint 1)) := by
      unfold json_read_object
      rw [jsonInternal_step _ (by
        simp only [List.length_cons, List.length_append]; omega)]
      have hp : jsonPrime [scalarEntry name .t_integer 100] none 0 m0 =
          .ok (m0.write 100 (.vint 0)) := rfl
      simp only [hp]
      rw [objRun_init_brace _ (by
        simp only [List.length_cons, List.length_append]; omega)]
      rw [objRun_await_quote _ (by
        simp only [List.length_cons, List.length_append]; omega)]
      rw [objRun_inAttr_scanSub name _ (by
          simp only [List.length_cons, List.length_append]; omega)
        _ _ _ _ _ hq (by simpa using hlen30)]
      simp only [List.nil_append, hfind]
      rw [objRun_awaitval_colon _ (by
        simp only [List.length_cons, List.length_append]; omega)]
      rw [objRun_awaitval_token _ (by
          simp only [List.length_cons, List.length_append]; omega)
        _ _ _ _ _ _ (by decide) (by decide) (by decide) (by decide)
        (by simp +decide [scalarEntry, JsonAttrT.type, List.get?_cons_zero])]
      rw [objRun_token_close _ (by
        simp only [List.length_cons, List.length_append]; omega)]
      exact objRun_postval_int _ (by
          simp only [List.length_cons, List.length_append]; omega)
        name [] u0 _
    rw [hrun]
    exact ⟨rfl, read_write_hit _ _ _⟩
  · intro tok rest u0 m0 htok hlen
    obtain ⟨c1, tok', rfl⟩ : ∃ c t, tok = c :: t := by
      cases tok with
      | nil => exact absurd hlen (by decide)
      | cons c t => exact ⟨c, t, rfl⟩
    have hc1 := htok c1 (List.mem_cons_self ..)
    have hp : jsonPrime [scalarEntry ['v'] .t_integer 100] none 0 m0 =
        .ok (m0.write 100 (.vint 0)) := rfl
    unfold json_read_object
    rw [jsonInternal_step _ (by
      simp only [List.length_cons, List.length_append]; omega)]
    simp only [hp]
    rw [objRun_init_brace _ (by
      simp only [List.length_cons, List.length_append]; omega)]
    rw [objRun_await_quote _ (by
      simp only [List.length_cons, List.length_append]; omega)]
    rw [show ('v' : Char) :: '"' :: ':' :: ((c1 :: tok') ++ rest) =
        ['v'] ++ '"' :: (':' :: ((c1 :: tok') ++ rest)) from rfl]
    rw [objRun_inAttr_scanSub ['v'] _ (by
        simp only [List.length_cons, List.length_append]; omega)
      _ _ _ _ _ (by decide) (by simp)]
    simp only [List.nil_append,
      show List.findIdx? (fun e => e.attrName == ['v'])
        [scalarEntry ['v'] .t_integer 100] = some 0 from by decide]
    rw [objRun_awaitval_colon _ (by
      simp only [List.length_cons, List.length_append]; omega)]
    rw [show (c1 :: tok') ++ rest = c1 :: (tok' ++ rest) from rfl]
    rw [objRun_awaitval_token _ (by
        simp only [List.length_cons, List.length_append]; omega)
      _ _ _ _ _ _ hc1.1 hc1.2.2.2.2.2 hc1.2.2.2.2.1 hc1.2.2.2.1
      (by simp +decide [scalarEntry, JsonAttrT.type, List.get?_cons_zero])]
    rw [objRun_token_overflow tok' _ _ _ _ _ _
      (fun c hc => ⟨(htok c (List.mem_cons_of_mem _ hc)).1,
        (htok c (List.mem_cons_of_mem _ hc)).2.1,
        (htok c (List.mem_cons_of_mem _ hc)).2.2.1⟩)
      (by simp only [List.length_cons] at hlen
          simp <;> omega)
      (by simp)
      (by simp only [List.length_cons, List.length_append]; omega)]
    rfl

def c6cxName : List Char := List.replicate 31 'a'

def c6schema1 : List JsonAttrT := [scalarEntry c6cxName .t_integer 100]

def c6cxInput1 : List Char := '{' :: '"' :: (c6cxName ++ ['"', ':', '1', '}'])

def c6escBody : List Char := (List.replicate 257 ['\\', 'n']).join

def c6cxInput2 : List Char :=
  '{' :: '"' :: 'v' :: '"' :: ':' :: '"' :: (c6escBody ++ ['"', '}'])

set_option maxRecDepth 400000 in
/-- C6 (counterexample to the claim as stated): a 31-byte attribute name
is rejected with attr-long even though it matches the schema (the claimed
bound of 31 is off by one — the real bound is 30); and a quoted string
value of 516 source bytes (an opening quote, 257 two-byte escape
sequences, a closing quote) parses with status 0, because escape
processing appends to the value buffer without the length check. -/
theorem claim_C6_counterexample :
    c6cxName.length = 31 ∧
    (json_read_object c6cxInput1 c6schema1 0 []).status = JSON_ERR_ATTRLEN ∧
    c6escBody.length = 514 ∧
    (json_read_object c6cxInput2 [stringEntry ['v'] 600 8] 0 []).status = 0 := by
  decide

set_option maxRecDepth 100000 in
/-- Witness for C6: the three amended clauses applied at a 31-byte name,
the 3-byte name foo, and a 513-byte token of sevens. -/
theorem claim_C6_witness :
    (json_read_object ('{' :: '"' :: (List.replicate 31 'a' ++ ['"', ':', '1', '}']))
        c6schema1 0 []).status = JSON_ERR_ATTRLEN ∧
    (json_read_object
        ('{' :: '"' :: (['f', 'o', 'o'] ++ '"' :: ':' :: '1' :: '}' :: []))
        [scalarEntry ['f', 'o', 'o'] .t_integer 100] 0 []).status = 0 ∧
    Mem.read (json_read_object
        ('{' :: '"' :: (['f', 'o', 'o'] ++ '"' :: ':' :: '1' :: '}' :: []))
        [scalarEntry ['f', 'o', 'o'] .t_integer 100] 0 []).mem 100 = CVal.vint 1 ∧
    (json_read_object
        ('{' :: '"' :: 'v' :: '"' :: ':' :: (List.replicate 513 '7' ++ []))
        [scalarEntry ['v'] .t_integer 100] 0 []).status = JSON_ERR_TOKLONG := by
  have h1 := claim_C6.1 c6schema1 (List.replicate 31 'a') ['"', ':', '1', '}'] 0 []
    (by decide) (by decide)
  have h2 := claim_C6.2.1 ['f', 'o', 'o'] 0 [] (by decide) (by decide)
  have h3 := claim_C6.2.2 (List.replicate 513 '7') [] 0 [] (by decide) (by decide)
  exact ⟨h1, h2.1, h2.2, h3⟩
